import Mathlib

/-!
Shallow embedding of the multi-agent-email terminal client (Go sources:
the bubbletea view/state-machine engine in `src/unnamed/part_000`, the
domain types in `src/unnamed/part_001`, and the HTTP client request shapes
in `src/cli/api.go`).

Modelling conventions:
* Go `map[string]interface\x7b\x7d` values decoded from JSON are modelled as
  association lists (`Obj`) built in first-occurrence order with
  last-value-wins on duplicate keys, matching `encoding/json` map decoding.
* JSON numbers (Go `float64`) are modelled as exact rationals (`Rat`).
* `lipgloss` style rendering only wraps text in ANSI escape sequences; it is
  modelled as the identity on the text content.
* Go `error` values are modelled by their message string.
* The bubbles spinner is pure presentation and is not part of the state.
-/

namespace EmailClient

/-- Values produced by decoding JSON text, as Go `encoding/json` decodes into
`interface\x7b\x7d`: null, booleans, numbers (float64, modelled as `Rat`),
strings, arrays, and objects (maps, modelled as association lists). -/
inductive JsonValue : Type where
  | null : JsonValue
  | bool : Bool → JsonValue
  | num : Rat → JsonValue
  | str : String → JsonValue
  | arr : List JsonValue → JsonValue
  | obj : List (String × JsonValue) → JsonValue
deriving BEq

/-- A decoded JSON object (Go `map[string]interface\x7b\x7d`). -/
abbrev Obj : Type := List (String × JsonValue)

/-- JSON whitespace characters (RFC 8259, as accepted by `encoding/json`). -/
def isJsonWs (c : Char) : Bool :=
  c = ' ' || c = '\t' || c = '\n' || c = '\r'

/-- Skip leading JSON whitespace. -/
def skipWs : List Char → List Char
  | [] => []
  | c :: cs => if isJsonWs c then skipWs cs else c :: cs

/-- Numeric value of a hexadecimal digit. -/
def hexDigitVal (c : Char) : Option Nat :=
  if '0' ≤ c ∧ c ≤ '9' then some (c.toNat - '0'.toNat)
  else if 'a' ≤ c ∧ c ≤ 'f' then some (c.toNat - 'a'.toNat + 10)
  else if 'A' ≤ c ∧ c ≤ 'F' then some (c.toNat - 'A'.toNat + 10)
  else none

/-- Parse exactly four hexadecimal digits (the payload of a \u escape). -/
def parseHex4 : List Char → Option (Nat × List Char)
  | a :: b :: c :: d :: rest => do
    let va ← hexDigitVal a
    let vb ← hexDigitVal b
    let vc ← hexDigitVal c
    let vd ← hexDigitVal d
    some (((va * 16 + vb) * 16 + vc) * 16 + vd, rest)
  | _ => none

/-- Convert a code point to a character; surrogate halves and out-of-range
values become the Unicode replacement character, as in Go\x27s decoder. -/
def codePointChar (n : Nat) : Char :=
  if n < 0xd800 ∨ (0xe000 ≤ n ∧ n < 0x110000) then
    Char.ofNat n
  else
    Char.ofNat 0xfffd

/-- Parse the body of a JSON string after the opening quote, handling the
escape sequences `encoding/json` accepts, including surrogate pairs in
\u escapes (unpaired surrogates become U+FFFD without error). -/
def parseStringBody : Nat → List Char → List Char → Except String (String × List Char)
  | 0, _, _ => .error "string literal too long"
  | _ + 1, _, [] => .error "unexpected end of JSON input"
  | fuel + 1, acc, c :: rest =>
    if c = '"' then
      .ok (String.mk acc.reverse, rest)
    else if c = '\\' then
      match rest with
      | [] => .error "unexpected end of JSON input"
      | e :: rest₂ =>
        if e = '"' then parseStringBody fuel ('"' :: acc) rest₂
        else if e = '\\' then parseStringBody fuel ('\\' :: acc) rest₂
        else if e = '/' then parseStringBody fuel ('/' :: acc) rest₂
        else if e = 'b' then parseStringBody fuel ('\x08' :: acc) rest₂
        else if e = 'f' then parseStringBody fuel ('\x0c' :: acc) rest₂
        else if e = 'n' then parseStringBody fuel ('\n' :: acc) rest₂
        else if e = 'r' then parseStringBody fuel ('\r' :: acc) rest₂
        else if e = 't' then parseStringBody fuel ('\t' :: acc) rest₂
        else if e = 'u' then
          match parseHex4 rest₂ with
          | none => .error "invalid character in \\u hexadecimal escape"
          | some (n, rest₃) =>
            if 0xd800 ≤ n ∧ n < 0xdc00 then
              match rest₃ with
              | '\\' :: 'u' :: rest₄ =>
                match parseHex4 rest₄ with
                | some (lo, rest₅) =>
                  if 0xdc00 ≤ lo ∧ lo < 0xe000 then
                    parseStringBody fuel
                      (codePointChar (0x10000 + (n - 0xd800) * 0x400 + (lo - 0xdc00)) :: acc) rest₅
                  else parseStringBody fuel (codePointChar 0xfffd :: acc) rest₃
                | none => parseStringBody fuel (codePointChar 0xfffd :: acc) rest₃
              | _ => parseStringBody fuel (codePointChar 0xfffd :: acc) rest₃
            else
              parseStringBody fuel (codePointChar n :: acc) rest₃
        else .error "invalid character in string escape code"
    else if c.toNat < 0x20 then
      .error "invalid character in string literal"
    else
      parseStringBody fuel (c :: acc) rest

/-- Span of leading decimal digits. -/
def takeDigits : List Char → List Char × List Char
  | [] => ([], [])
  | c :: cs =>
    if c.isDigit then
      let (ds, rest) := takeDigits cs
      (c :: ds, rest)
    else ([], c :: cs)

/-- Numeric value of a list of decimal digits. -/
def digitsVal (ds : List Char) : Nat :=
  ds.foldl (fun acc c => acc * 10 + (c.toNat - '0'.toNat)) 0

/-- Parse a JSON number (RFC 8259 grammar, as enforced by `encoding/json`:
no leading plus, no leading zeros, a fraction and exponent need at least one
digit).  The exact decimal value is kept as a rational. -/
def parseNumber (cs : List Char) : Except String (Rat × List Char) :=
  let (neg, cs₁) :=
    match cs with
    | '-' :: rest => (true, rest)
    | _ => (false, cs)
  match cs₁ with
  | [] => .error "unexpected end of JSON input"
  | c :: _ =>
    if ¬ c.isDigit then .error "invalid number literal" else
    let (intDs, cs₂) := takeDigits cs₁
    if intDs.length > 1 ∧ intDs.headD '0' = '0' then .error "invalid number literal" else
    let (fracDs, cs₃) :=
      match cs₂ with
      | '.' :: rest => takeDigits rest
      | _ => ([], cs₂)
    if (match cs₂ with | '.' :: _ => fracDs.isEmpty | _ => false) then
      .error "invalid number literal"
    else
    let n : Int := ((digitsVal intDs * 10 ^ fracDs.length + digitsVal fracDs : Nat) : Int)
    let sn : Int := if neg then -n else n
    match cs₃ with
    | e :: rest₀ =>
      if e = 'e' ∨ e = 'E' then
        let (expNeg, rest₁) :=
          match rest₀ with
          | '+' :: r => (false, r)
          | '-' :: r => (true, r)
          | _ => (false, rest₀)
        let (expDs, rest₂) := takeDigits rest₁
        if expDs.isEmpty then .error "invalid number literal" else
        let ex := digitsVal expDs
        let q :=
          if expNeg then mkRat sn (10 ^ (fracDs.length + ex))
          else mkRat (sn * (10 : Int) ^ ex) (10 ^ fracDs.length)
        .ok (q, rest₂)
      else .ok (mkRat sn (10 ^ fracDs.length), cs₃)
    | [] => .ok (mkRat sn (10 ^ fracDs.length), [])

/-- Insert a decoded object field: later occurrences of a key overwrite the
earlier value, as when `encoding/json` fills a Go map. -/
def insertField (fs : List (String × JsonValue)) (k : String) (v : JsonValue) :
    List (String × JsonValue) :=
  match fs with
  | [] => [(k, v)]
  | (k₀, v₀) :: rest =>
    if k₀ = k then (k₀, v) :: rest else (k₀, v₀) :: insertField rest k v

mutual

/-- Parse one JSON value.  `fuel` bounds the recursion; the top-level entry
point supplies more fuel than any input of its length can consume. -/
def parseValue : Nat → List Char → Except String (JsonValue × List Char)
  | 0, _ => .error "JSON value too deeply nested"
  | fuel + 1, cs =>
    match cs with
    | [] => .error "unexpected end of JSON input"
    | c :: rest =>
      if c = 'n' then
        match rest with
        | 'u' :: 'l' :: 'l' :: rest₂ => .ok (.null, rest₂)
        | _ => .error "invalid literal, expected null"
      else if c = 't' then
        match rest with
        | 'r' :: 'u' :: 'e' :: rest₂ => .ok (.bool true, rest₂)
        | _ => .error "invalid literal, expected true"
      else if c = 'f' then
        match rest with
        | 'a' :: 'l' :: 's' :: 'e' :: rest₂ => .ok (.bool false, rest₂)
        | _ => .error "invalid literal, expected false"
      else if c = '"' then
        match parseStringBody (rest.length + 1) [] rest with
        | .error e => .error e
        | .ok (s, rest₂) => .ok (.str s, rest₂)
      else if c = '-' ∨ c.isDigit then
        match parseNumber cs with
        | .error e => .error e
        | .ok (q, rest₂) => .ok (.num q, rest₂)
      else if c = '[' then
        match skipWs rest with
        | ']' :: rest₂ => .ok (.arr [], rest₂)
        | cs₂ => parseArrayItems fuel cs₂ []
      else if c = '\x7b' then
        match skipWs rest with
        | '\x7d' :: rest₂ => .ok (.obj [], rest₂)
        | cs₂ => parseObjectItems fuel cs₂ []
      else
        .error "invalid character looking for beginning of value"
termination_by structural fuel => fuel

/-- Parse the items of a non-empty JSON array, positioned at a value. -/
def parseArrayItems : Nat → List Char → List JsonValue → Except String (JsonValue × List Char)
  | 0, _, _ => .error "JSON value too deeply nested"
  | fuel + 1, cs, acc =>
    match parseValue fuel cs with
    | .error e => .error e
    | .ok (v, rest) =>
      match skipWs rest with
      | ']' :: rest₂ => .ok (.arr (acc ++ [v]), rest₂)
      | ',' :: rest₂ => parseArrayItems fuel (skipWs rest₂) (acc ++ [v])
      | _ => .error "invalid character after array element"
termination_by structural fuel => fuel

/-- Parse the members of a non-empty JSON object, positioned at a key. -/
def parseObjectItems : Nat → List Char → List (String × JsonValue) →
    Except String (JsonValue × List Char)
  | 0, _, _ => .error "JSON value too deeply nested"
  | fuel + 1, cs, acc =>
    match cs with
    | '"' :: rest =>
      match parseStringBody (rest.length + 1) [] rest with
      | .error e => .error e
      | .ok (k, rest₂) =>
        match skipWs rest₂ with
        | ':' :: rest₃ =>
          match parseValue fuel (skipWs rest₃) with
          | .error e => .error e
          | .ok (v, rest₄) =>
            match skipWs rest₄ with
            | '\x7d' :: rest₅ => .ok (.obj (insertField acc k v), rest₅)
            | ',' :: rest₅ => parseObjectItems fuel (skipWs rest₅) (insertField acc k v)
            | _ => .error "invalid character after object member"
        | _ => .error "invalid character after object key"
    | _ => .error "invalid character looking for beginning of object key string"
termination_by structural fuel => fuel

end

/-- Model of `json.Unmarshal(raw, &parsed)` with `parsed` a Go
`map[string]interface\x7b\x7d`: the text must be one JSON value followed only
by whitespace; a top-level object decodes to its field map, the JSON literal
`null` decodes successfully and leaves the map nil (modelled as `none`), and
any other top-level value is a type error. -/
def unmarshalObj (s : String) : Except String (Option Obj) :=
  let cs := skipWs s.data
  match parseValue (2 * cs.length + 8) cs with
  | .error e => .error e
  | .ok (v, rest) =>
    if (skipWs rest).isEmpty then
      match v with
      | .obj fs => .ok (some fs)
      | .null => .ok none
      | _ => .error "cannot unmarshal value into Go value of type map"
    else
      .error "invalid character after top-level value"

/-- Render at most 64 fractional digits of `rest / den` (display only). -/
def fracDigitsAux : Nat → Nat → Nat → List Char
  | 0, _, _ => []
  | _, 0, _ => []
  | fuel + 1, rest, den =>
    let d := rest * 10 / den
    let r := rest * 10 % den
    Char.ofNat ('0'.toNat + d) :: fracDigitsAux fuel r den

/-- Decimal rendering of a rational, standing in for Go float64 formatting of
decoded JSON numbers (display only; numbers are modelled exactly). -/
def ratToDecimalString (q : Rat) : String :=
  let sign := if q < 0 then "-" else ""
  let n := q.num.natAbs
  let ip := n / q.den
  let rest := n % q.den
  if rest = 0 then sign ++ toString ip
  else sign ++ toString ip ++ "." ++ String.mk (fracDigitsAux 64 rest q.den)

/-- Escape one character of a JSON string the way `encoding/json` does when
marshalling (including its default HTML escaping). -/
def escapeJsonChar (c : Char) : List Char :=
  if c = '"' then ['\\', '"']
  else if c = '\\' then ['\\', '\\']
  else if c = '\n' then ['\\', 'n']
  else if c = '\r' then ['\\', 'r']
  else if c = '\t' then ['\\', 't']
  else if c = '<' then "\\u003c".data
  else if c = '>' then "\\u003e".data
  else if c = '&' then "\\u0026".data
  else if c.toNat < 0x20 then
    "\\u00".data ++ [if c.toNat / 16 < 10 then Char.ofNat ('0'.toNat + c.toNat / 16)
                     else Char.ofNat ('a'.toNat + c.toNat / 16 - 10),
                     if c.toNat % 16 < 10 then Char.ofNat ('0'.toNat + c.toNat % 16)
                     else Char.ofNat ('a'.toNat + c.toNat % 16 - 10)]
  else [c]

/-- Quote a string as JSON source text. -/
def quoteJsonString (s : String) : String :=
  "\"" ++ String.mk (s.data.map escapeJsonChar).flatten ++ "\""

/-- Object fields sorted by key, as `encoding/json` marshals Go maps. -/
def sortFields (fs : List (String × JsonValue)) : List (String × JsonValue) :=
  fs.mergeSort (fun a b => a.1 ≤ b.1)

/-- Indentation prefix used by `json.MarshalIndent(value, "", "  ")`. -/
def indentStr (k : Nat) : String := String.join (List.replicate k "  ")

/-- Model of `json.MarshalIndent(value, "", "  ")` on decoded JSON values.
The first argument is depth fuel; the entry point supplies more than any
value produced by the decoder can need. -/
def prettyVal : Nat → Nat → JsonValue → String
  | 0, _, _ => "null"
  | fuel + 1, ind, v =>
    match v with
    | .null => "null"
    | .bool b => if b then "true" else "false"
    | .num q => ratToDecimalString q
    | .str s => quoteJsonString s
    | .arr [] => "[]"
    | .arr xs =>
      "[\n" ++
        String.intercalate ",\n"
          (xs.map (fun x => indentStr (ind + 1) ++ prettyVal fuel (ind + 1) x)) ++
        "\n" ++ indentStr ind ++ "]"
    | .obj [] => "\x7b\x7d"
    | .obj fs =>
      "\x7b\n" ++
        String.intercalate ",\n"
          ((sortFields fs).map (fun p =>
            indentStr (ind + 1) ++ quoteJsonString p.1 ++ ": " ++ prettyVal fuel (ind + 1) p.2)) ++
        "\n" ++ indentStr ind ++ "\x7d"

/-- Model of `toPrettyJSON`: marshalling a value decoded from JSON cannot
fail, so the Go error return is omitted. -/
def toPrettyJSON (v : JsonValue) : String := prettyVal 512 0 v

/-- A decoded-or-nil Go map as a JSON value (`nil` marshals to `null`). -/
def optObjJson : Option Obj → JsonValue
  | none => .null
  | some fs => .obj fs

/-- Whitespace trimmed by Go `strings.TrimSpace` (ASCII and Latin-1 cases;
the engine only ever trims ASCII text). -/
def isGoSpace (c : Char) : Bool :=
  c = ' ' || c = '\t' || c = '\n' || c = '\r' || c = '\x0b' || c = '\x0c' ||
    c = '\x85' || c = '\xa0'

/-- Model of `strings.TrimSpace`. -/
def trimSpace (s : String) : String :=
  String.mk (((s.data.dropWhile isGoSpace).reverse.dropWhile isGoSpace).reverse)

/-- Floor of a rational as an integer. -/
def ratFloorInt (q : Rat) : Int := Int.fdiv q.num (q.den : Int)

/-- Round to the nearest integer, ties to even — the rounding `fmt`
verb `%.1f` applies at the last kept digit. -/
def roundHalfEven (q : Rat) : Int :=
  let f := ratFloorInt q
  let r := q - (f : Rat)
  if r < mkRat 1 2 then f
  else if mkRat 1 2 < r then f + 1
  else if f % 2 = 0 then f else f + 1

/-- Model of `fmt.Sprintf("%.1f", x)` for nonnegative values (probabilities),
with floats modelled as exact rationals. -/
def formatFixed1 (q : Rat) : String :=
  let n := roundHalfEven (q * 10)
  if n < 0 then
    "-" ++ toString ((-n).toNat / 10) ++ "." ++ toString ((-n).toNat % 10)
  else
    toString (n.toNat / 10) ++ "." ++ toString (n.toNat % 10)

/-- The percentage text `fmt.Sprintf("%.1f%%", p*100)` in `renderClassification`. -/
def formatPercent (p : Rat) : String := formatFixed1 (p * 100) ++ "%"

/-- Email (source: `src/unnamed/part_001`). -/
structure Email where
  mailID : String := ""
  externalID : String := ""
  threadID : String := ""
  fromName : String := ""
  fromEmail : String := ""
  toAddrs : List String := []
  cc : List String := []
  subject : String := ""
  body : String := ""
deriving DecidableEq, Inhabited

/-- Summary payload (source: `src/unnamed/part_001`). -/
structure SummaryPayload where
  text : String := ""
deriving DecidableEq, Inhabited

/-- Classification payload (source: `src/unnamed/part_001`).  The Go maps are
modelled as association lists; a nil map is the empty list. -/
structure ClassificationPayload where
  probabilities : List (String × Rat) := []
  decisions : List (String × Bool) := []
deriving DecidableEq, Inhabited

/-- Proposed action (source: `src/unnamed/part_001`).  `payload` and `result`
are Go maps that may be nil (`none`). -/
structure Action where
  actionID : String := ""
  mailID : String := ""
  type : String := ""
  status : String := ""
  payload : Option Obj := none
  result : Option Obj := none
deriving Inhabited

/-- Submission result (source: `src/unnamed/part_001`, `NewEmailResponse`). -/
structure NewEmailResponse where
  mailID : String := ""
  summary : Option SummaryPayload := none
  proposedActions : List Action := []
  classification : ClassificationPayload := {}
deriving Inhabited

/-- The nine screens of the engine (source: `viewState` in `src/unnamed/part_000`). -/
inductive ViewState : Type where
  | stateLoading
  | statePreviewEmail
  | stateSummary
  | stateReview
  | stateEditingPayload
  | statePromptGeneral
  | stateSubmittingAction
  | stateDone
  | stateError
deriving DecidableEq, Inhabited

open ViewState

/-- Key events delivered by the terminal (the subset of `tea.KeyMsg` the
engine distinguishes). -/
inductive KeyMsg : Type where
  | ctrlC
  | enter
  | ctrlS
  | esc
  | runes (s : String)
  | up
  | down
  | pgUp
  | pgDown
  | home
  | endKey
deriving DecidableEq

/-- Scrollable viewport, modelled from the bubbles viewport widget (an
external library): width, height, content and window position are all the
engine observes. -/
structure Viewport where
  width : Int := 80
  height : Int := 20
  content : String := ""
  yOffset : Int := 0

/-- Number of lines of rendered content. -/
def countLines (s : String) : Int := ((s.splitOn "\n").length : Int)

/-- Largest scroll offset for the current content. -/
def maxYOffset (vp : Viewport) : Int := max 0 (countLines vp.content - vp.height)

/-- Viewport `SetContent`. -/
def vpSetContent (vp : Viewport) (s : String) : Viewport := { vp with content := s }

/-- Viewport `GotoTop`. -/
def vpGotoTop (vp : Viewport) : Viewport := { vp with yOffset := 0 }

/-- Viewport `GotoBottom`. -/
def vpGotoBottom (vp : Viewport) : Viewport := { vp with yOffset := maxYOffset vp }

/-- Viewport `LineUp`. -/
def vpLineUp (vp : Viewport) (n : Int) : Viewport := { vp with yOffset := max 0 (vp.yOffset - n) }

/-- Viewport `LineDown`. -/
def vpLineDown (vp : Viewport) (n : Int) : Viewport :=
  { vp with yOffset := min (maxYOffset vp) (vp.yOffset + n) }

/-- Viewport `ViewUp` (one page up). -/
def vpViewUp (vp : Viewport) : Viewport := { vp with yOffset := max 0 (vp.yOffset - vp.height) }

/-- Viewport `ViewDown` (one page down). -/
def vpViewDown (vp : Viewport) : Viewport :=
  { vp with yOffset := min (maxYOffset vp) (vp.yOffset + vp.height) }

/-- Payload editor, modelled from the bubbles textarea widget (an external
library): the engine observes only its dimensions and buffer text. -/
structure Editor where
  width : Int := 80
  height : Int := 12
  value : String := ""
  focused : Bool := false

/-- Model of the textarea `Update`: typed runes and newlines are appended to
the buffer (the editor is always entered with the cursor at the end); the
save (Ctrl+S) and cancel (Esc) keys are not textarea bindings and leave the
buffer unchanged. -/
def textareaUpdate (ed : Editor) : KeyMsg → Editor
  | .runes s => if ed.focused then { ed with value := ed.value ++ s } else ed
  | .enter => if ed.focused then { ed with value := ed.value ++ "\n" } else ed
  | _ => ed

/-- The four gateway requests the engine can dispatch, with the correlation
data the corresponding `tea.Cmd` closures capture. -/
inductive GatewayCall : Type where
  | submitEmail (email : Email)
  | approveAction (index : Int) (actionID : String)
  | rejectAction (index : Int) (actionID : String)
  | modifyAction (index : Int) (actionID : String) (payload : Option Obj) (applyToGeneral : Bool)

/-- Commands returned by `Update` (`tea.Cmd`): nothing, quit, a spinner tick,
a gateway call, or a `tea.Batch` of two commands. -/
inductive Cmd : Type where
  | noCmd
  | quit
  | tick
  | call (g : GatewayCall)
  | batch (a b : Cmd)

/-- The gateway calls contained in a command. -/
def Cmd.calls : Cmd → List GatewayCall
  | .noCmd => []
  | .quit => []
  | .tick => []
  | .call g => [g]
  | .batch a b => a.calls ++ b.calls

/-- Whether a command ends the process (`tea.Quit`). -/
def Cmd.quits : Cmd → Bool
  | .quit => true
  | .batch a b => a.quits || b.quits
  | _ => false

/-- Messages consumed by `Update`: resize events, key events, the two
asynchronous completion messages, and everything else (spinner ticks). -/
inductive Msg : Type where
  | windowSize (width height : Int)
  | key (k : KeyMsg)
  | newEmail (email : Email) (resp : Option NewEmailResponse) (err : Option String)
  | actionUpdated (index : Int) (action : Action) (err : Option String)
  | tickMsg

/-- The engine state (source: `appModel` in `src/unnamed/part_000`).  The
`client` pointer and the spinner are external and carry no engine state. -/
structure AppModel where
  view : ViewState := stateLoading
  email : Email := {}
  emails : List Email := []
  currentEmail : Int := 0
  response : Option NewEmailResponse := none
  currentAction : Int := 0
  status : String := ""
  editor : Editor := {}
  editorErr : String := ""
  pending : Option Obj := none
  err : Option String := none
  viewport : Viewport := {}

/-- lipgloss bold title style, modelled as identity on the text. -/
def titleStyleRender (s : String) : String := s

/-- lipgloss label style, modelled as identity on the text. -/
def labelStyle (s : String) : String := s

/-- lipgloss success style, modelled as identity on the text. -/
def successStyle (s : String) : String := s

/-- lipgloss error style, modelled as identity on the text. -/
def errorTextStyle (s : String) : String := s

/-- lipgloss subtle style, modelled as identity on the text. -/
def subtleTextStyle (s : String) : String := s

/-- The instruction line of the email preview screen. -/
def previewInstruction : String :=
  "Press Enter to submit the email to the agents. Press \x27q\x27 to quit."

/-- A `label value` line. -/
def labelledLine (label value : String) : String := labelStyle label ++ " " ++ value

/-- Sender formatted as `Name <address>` or the bare address. -/
def formatSender (email : Email) : String :=
  let name := trimSpace email.fromName
  if name ≠ "" then name ++ " <" ++ email.fromEmail ++ ">" else email.fromEmail

/-- Comma-joined address list; empty input renders as the empty string. -/
def formatAddressList (addresses : List String) : String :=
  if addresses.isEmpty then "" else String.intercalate ", " addresses

/-- Body text re-indented line by line, blank lines becoming indent only. -/
def indentMultiline (text indent : String) : String :=
  if text = "" then indent
  else
    let clean := text.replace "\r\n" "\n"
    let lines := clean.splitOn "\n"
    String.intercalate "\n" (lines.map (fun line => if line = "" then indent else indent ++ line))

/-- The email preview block. -/
def renderEmailPreview (email : Email) : String :=
  let b := titleStyleRender "Email Ready to Submit" ++ "\n\n" ++
    labelledLine "Mail ID:" email.mailID
  let b := if trimSpace email.subject ≠ "" then
      b ++ "\n" ++ labelledLine "Subject:" (trimSpace email.subject) else b
  let b := b ++ "\n" ++ labelledLine "From:" (formatSender email)
  let b := if formatAddressList email.toAddrs ≠ "" then
      b ++ "\n" ++ labelledLine "To:" (formatAddressList email.toAddrs) else b
  let b := if formatAddressList email.cc ≠ "" then
      b ++ "\n" ++ labelledLine "CC:" (formatAddressList email.cc) else b
  b ++ "\n\n" ++ labelStyle "Body:" ++ "\n" ++ indentMultiline email.body "  "

/-- Keys of the probability map (`mapsKeys`; Go map iteration order is
irrelevant because the caller sorts). -/
def mapsKeys (m : List (String × Rat)) : List String := m.map Prod.fst

/-- Probability for a category (Go map read: zero value when absent). -/
def probLookup (ps : List (String × Rat)) (k : String) : Rat :=
  (((ps.find? (fun p => p.1 == k)).map Prod.snd).getD 0)

/-- Decision for a category (`c.Decisions != nil && c.Decisions[key]`). -/
def decLookup (ds : List (String × Bool)) (k : String) : Bool :=
  (((ds.find? (fun p => p.1 == k)).map Prod.snd).getD false)

/-- The classification block (source: `renderClassification`). -/
def renderClassification (c : ClassificationPayload) : String :=
  if c.probabilities.isEmpty then "No classification data."
  else
    let keys := (mapsKeys c.probabilities).mergeSort (fun a b => a ≤ b)
    let lines := keys.map (fun key =>
      let percent := formatPercent (probLookup c.probabilities key)
      let mark := if decLookup c.decisions key then " (selected)" else ""
      "- " ++ key ++ ": " ++ percent ++ mark)
    String.intercalate "\n" lines

/-- `jsonBlock` (the marshal-failure branch is unreachable for decoded
values and is omitted). -/
def jsonBlock (title : String) (value : JsonValue) : String :=
  "\n" ++ labelStyle (title ++ ":") ++ "\n" ++ toPrettyJSON value

/-- Go `strings.TrimSuffix(s, "\n")`. -/
def trimSuffixNewline (s : String) : String :=
  if s.endsWith "\n" then s.dropRight 1 else s

/-- `maxInt` from the source. -/
def maxInt (a b : Int) : Int := if a > b then a else b

/-- `hasActions`. -/
def hasActions (m : AppModel) : Bool :=
  match m.response with
  | none => false
  | some r => r.proposedActions.length > 0

/-- `actionAt`: the action at an index, when the response exists and the
index is in range. -/
def actionAt (m : AppModel) (index : Int) : Option Action :=
  match m.response with
  | none => none
  | some r =>
    if index < 0 ∨ (r.proposedActions.length : Int) ≤ index then none
    else r.proposedActions[index.toNat]?

/-- `currentActionRef`. -/
def currentActionRef (m : AppModel) : Option Action := actionAt m m.currentAction

/-- `currentActionID`. -/
def currentActionID (m : AppModel) : String :=
  match currentActionRef m with
  | some action => action.actionID
  | none => ""

/-- `hasMoreEmails`. -/
def hasMoreEmails (m : AppModel) : Bool :=
  m.currentEmail + 1 < (m.emails.length : Int)

/-- `viewUsesViewport`. -/
def viewUsesViewport : ViewState → Bool
  | statePreviewEmail | stateSummary | stateReview | statePromptGeneral | stateDone
  | stateError => true
  | _ => false

/-- The preview screen content (`renderPreviewEmailContent`). -/
def renderPreviewEmailContent (m : AppModel) : String :=
  let content := renderEmailPreview m.email
  let instruction := if trimSpace m.status = "" then previewInstruction else trimSpace m.status
  content ++ "\n\n" ++ subtleTextStyle instruction

/-- The summary screen content (`renderSummaryContent`). -/
def renderSummaryContent (m : AppModel) : String :=
  match m.response with
  | none => ""
  | some resp =>
    let fromText :=
      if trimSpace m.email.fromName ≠ "" then
        trimSpace m.email.fromName ++ " <" ++ m.email.fromEmail ++ ">"
      else m.email.fromEmail
    let summary :=
      match resp.summary with
      | some s => if trimSpace s.text ≠ "" then "\n" ++ labelStyle "Summary:" ++ "\n" ++ s.text else ""
      | none => ""
    titleStyleRender "Email Summary" ++ "\n\n" ++
      labelledLine "Mail ID:" resp.mailID ++ "\n" ++
      labelledLine "Subject:" m.email.subject ++ "\n" ++
      labelledLine "From:" fromText ++ "\n" ++
      labelledLine "To:" (String.intercalate ", " m.email.toAddrs) ++
      summary ++ "\n\n" ++
      labelStyle "Classification:" ++ "\n" ++
      renderClassification resp.classification ++ "\n" ++
      subtleTextStyle "Press Enter to review proposed actions. Use arrow keys to scroll."

/-- The review screen content (`renderCurrentActionContent`). -/
def renderCurrentActionContent (m : AppModel) : String :=
  match currentActionRef m with
  | none => ""
  | some action =>
    let total := ((m.response.map (fun r => r.proposedActions.length)).getD 0 : Int)
    let result :=
      match action.result with
      | some r => jsonBlock "Result" (JsonValue.obj r)
      | none => ""
    let status := if m.status ≠ "" then "\n\n" ++ subtleTextStyle m.status else ""
    titleStyleRender "Proposed Action" ++ " (" ++ toString (m.currentAction + 1) ++ "/" ++
      toString total ++ ")\n\n" ++
      labelledLine "Action ID:" action.actionID ++ "\n" ++
      labelledLine "Type:" action.type ++ "\n" ++
      labelledLine "Status:" action.status ++
      jsonBlock "Payload" (optObjJson action.payload) ++
      result ++ status ++ "\n\n" ++
      "Choose: [a]pprove  [m]odify  [r]eject  [q]uit" ++ "\n" ++
      "Use arrow keys or PgUp/PgDn to scroll."

/-- The preference prompt content (`renderPromptGeneralContent`). -/
def renderPromptGeneralContent (m : AppModel) : String :=
  titleStyleRender "Preference Update" ++ "\n\n" ++ m.status ++
    "\n\nPress \x27y\x27 to apply to general preferences, \x27n\x27 for per-recipient, or Enter for the default (No)."

/-- The textarea rendering, modelled as the buffer text (line numbers and
cursor are presentation of the external widget). -/
def editorView (ed : Editor) : String := ed.value

/-- The payload editor screen (`renderPayloadEditor`). -/
def renderPayloadEditor (m : AppModel) : String :=
  let errorLine := if m.editorErr ≠ "" then "\n" ++ errorTextStyle m.editorErr else ""
  titleStyleRender "Modify Payload" ++ "\n\n" ++ editorView m.editor ++ errorLine ++ "\n" ++
    subtleTextStyle "Press Ctrl+S to submit changes, Esc to cancel."

/-- The completion screen content (`renderFinalStatusContent`). -/
def renderFinalStatusContent (m : AppModel) : String :=
  let b := titleStyleRender "Review Complete" ++ "\n\n"
  let b :=
    match m.response with
    | some resp =>
      b ++ String.join (resp.proposedActions.map (fun a => "- " ++ a.actionID ++ ": " ++ a.status ++ "\n")) ++
        (if resp.proposedActions.length > 0 then "\n" else "")
    | none => b
  let b := if m.status ≠ "" then b ++ m.status ++ "\n" else b
  let instruction :=
    if hasMoreEmails m then
      "Press Enter to load the next email, or \x27q\x27 to exit. Use arrow keys to review the list."
    else
      "Press Enter or \x27q\x27 to exit. Use arrow keys to review the list."
  trimSuffixNewline (b ++ subtleTextStyle instruction)

/-- The error screen content (`renderErrorContent`). -/
def renderErrorContent (m : AppModel) : String :=
  let message :=
    match m.err with
    | some e => errorTextStyle e ++ "\n\n"
    | none => ""
  titleStyleRender "Error" ++ "\n\n" ++ message ++ subtleTextStyle "Press Enter to exit."

/-- `currentViewContent`. -/
def currentViewContent (m : AppModel) : String :=
  match m.view with
  | statePreviewEmail => renderPreviewEmailContent m
  | stateSummary => renderSummaryContent m
  | stateReview => renderCurrentActionContent m
  | statePromptGeneral => renderPromptGeneralContent m
  | stateDone => renderFinalStatusContent m
  | stateError => renderErrorContent m
  | _ => ""

/-- `refreshViewport`. -/
def refreshViewport (m : AppModel) (reset : Bool) : AppModel :=
  if viewUsesViewport m.view then
    let vp := vpSetContent m.viewport (currentViewContent m)
    { m with viewport := if reset then vpGotoTop vp else vp }
  else m

/-- `setView`: install a screen and its status line, re-render. -/
def setView (m : AppModel) (v : ViewState) (status : String) : AppModel :=
  refreshViewport { m with view := v, status := status } true

/-- `fail`: record the error and move to the error screen. -/
def fail (m : AppModel) (e : String) : AppModel × Cmd :=
  (setView { m with err := some e } stateError "", Cmd.noCmd)

/-- `handleWindowSize`. -/
def handleWindowSize (m : AppModel) (w h : Int) : AppModel :=
  if w ≤ 0 ∨ h ≤ 0 then m
  else
    let vp := { m.viewport with width := w, height := maxInt 5 (h - 2) }
    let ed := { m.editor with width := maxInt 20 (w - 4), height := maxInt 5 (vp.height - 2) }
    refreshViewport { m with viewport := vp, editor := ed } true

/-- `handleViewportScroll`, returning the scrolled viewport and whether the
key was consumed. -/
def scrollViewport (vp : Viewport) : KeyMsg → Viewport × Bool
  | .up => (vpLineUp vp 1, true)
  | .down => (vpLineDown vp 1, true)
  | .pgUp => (vpViewUp vp, true)
  | .pgDown => (vpViewDown vp, true)
  | .home => (vpGotoTop vp, true)
  | .endKey => (vpGotoBottom vp, true)
  | _ => (vp, false)

/-- `loadSampleEmailCmd`: the dispatched submit-email call (the closure
captures the email; the HTTP exchange itself is external). -/
def loadSampleEmailCmd (email : Email) : Cmd := Cmd.call (.submitEmail email)

/-- `approveActionCmd`. -/
def approveActionCmd (index : Int) (actionID : String) : Cmd :=
  Cmd.call (.approveAction index actionID)

/-- `rejectActionCmd`. -/
def rejectActionCmd (index : Int) (actionID : String) : Cmd :=
  Cmd.call (.rejectAction index actionID)

/-- `modifyActionCmd`. -/
def modifyActionCmd (index : Int) (actionID : String) (payload : Option Obj)
    (applyToGeneral : Bool) : Cmd :=
  Cmd.call (.modifyAction index actionID payload applyToGeneral)

/-- `prepareEmail`. -/
def prepareEmail (m : AppModel) (index : Int) : AppModel × Cmd :=
  if index < 0 ∨ (m.emails.length : Int) ≤ index then (m, Cmd.noCmd)
  else
    let m' := { m with
      currentEmail := index,
      email := m.emails.getD index.toNat {},
      response := none,
      pending := none,
      currentAction := 0,
      editorErr := "",
      err := none }
    (setView m' statePreviewEmail previewInstruction, Cmd.noCmd)

/-- `prepareNextEmail`. -/
def prepareNextEmail (m : AppModel) : AppModel × Cmd :=
  let next := m.currentEmail + 1
  if (m.emails.length : Int) ≤ next then (m, Cmd.noCmd)
  else prepareEmail m next

/-- `beginEmailSubmission`. -/
def beginEmailSubmission (m : AppModel) : AppModel × Cmd :=
  (setView m stateLoading "Submitting email to the agents...",
    Cmd.batch Cmd.tick (loadSampleEmailCmd m.email))

/-- `beginActionUpdate`. -/
def beginActionUpdate (m : AppModel) (message : String) (cmd : Cmd) : AppModel × Cmd :=
  (setView m stateSubmittingAction message, Cmd.batch Cmd.tick cmd)

/-- `submitModifiedAction`. -/
def submitModifiedAction (m : AppModel) (apply : Bool) : AppModel × Cmd :=
  beginActionUpdate m "Submitting modified action..."
    (modifyActionCmd m.currentAction (currentActionID m) m.pending apply)

/-- `enterPayloadEditor` (the payload re-serialization failure branch is
unreachable for decoded values and is omitted). -/
def enterPayloadEditor (m : AppModel) : AppModel × Cmd :=
  match currentActionRef m with
  | none => (m, Cmd.noCmd)
  | some action =>
    let pretty := toPrettyJSON (optObjJson action.payload)
    let ed := { m.editor with value := pretty, focused := true }
    ({ m with editor := ed, editorErr := "", view := stateEditingPayload }, Cmd.noCmd)

/-- Model of `strings.ToLower` (ASCII case mapping; every key the engine
compares is ASCII). -/
def goToLower (s : String) : String := String.mk (s.data.map Char.toLower)

/-- `handlePreviewKey`. -/
def handlePreviewKey (m : AppModel) : KeyMsg → AppModel × Cmd
  | .enter => beginEmailSubmission m
  | .runes s => if goToLower s = "q" then (m, Cmd.quit) else (m, Cmd.noCmd)
  | _ => (m, Cmd.noCmd)

/-- `handleReviewKey`. -/
def handleReviewKey (m : AppModel) (k : KeyMsg) : AppModel × Cmd :=
  match currentActionRef m with
  | none => (m, Cmd.noCmd)
  | some action =>
    match k with
    | .runes s =>
      if goToLower s = "a" then
        beginActionUpdate m "Approving action..." (approveActionCmd m.currentAction action.actionID)
      else if goToLower s = "r" then
        beginActionUpdate m "Rejecting action..." (rejectActionCmd m.currentAction action.actionID)
      else if goToLower s = "m" then enterPayloadEditor m
      else if goToLower s = "q" then (m, Cmd.quit)
      else (m, Cmd.noCmd)
    | _ => (m, Cmd.noCmd)

/-- `handlePayloadKey`. -/
def handlePayloadKey (m : AppModel) (k : KeyMsg) : AppModel × Cmd :=
  let ed := textareaUpdate m.editor k
  let m0 := { m with editor := ed }
  match k with
  | .ctrlS =>
    let raw := trimSpace ed.value
    if raw = "" then ({ m0 with editorErr := "Payload cannot be empty." }, Cmd.noCmd)
    else
      match unmarshalObj raw with
      | .error e => ({ m0 with editorErr := "Invalid JSON: " ++ e }, Cmd.noCmd)
      | .ok parsed =>
        (setView { m0 with pending := parsed, editorErr := "" } statePromptGeneral
          "Apply extracted preferences to general profile? (y/N)", Cmd.noCmd)
  | .esc => (setView m0 stateReview (subtleTextStyle "Modification cancelled."), Cmd.noCmd)
  | _ => (m0, Cmd.noCmd)

/-- `handlePromptKey`. -/
def handlePromptKey (m : AppModel) : KeyMsg → AppModel × Cmd
  | .runes s =>
    if goToLower s = "y" then submitModifiedAction m true
    else if goToLower s = "n" then submitModifiedAction m false
    else (m, Cmd.noCmd)
  | .enter => submitModifiedAction m false
  | _ => (m, Cmd.noCmd)

/-- `handleKeyMsg`. -/
def handleKeyMsg (m : AppModel) (k : KeyMsg) : AppModel × Cmd :=
  if k = KeyMsg.ctrlC then (m, Cmd.quit)
  else
    let sc := scrollViewport m.viewport k
    if viewUsesViewport m.view && sc.2 then ({ m with viewport := sc.1 }, Cmd.noCmd)
    else
      match m.view with
      | statePreviewEmail => handlePreviewKey m k
      | stateSummary =>
        if k = KeyMsg.enter then (setView { m with currentAction := 0 } stateReview "", Cmd.noCmd)
        else (m, Cmd.noCmd)
      | stateReview => handleReviewKey m k
      | stateEditingPayload => handlePayloadKey m k
      | statePromptGeneral => handlePromptKey m k
      | stateDone =>
        match k with
        | .enter => if hasMoreEmails m then prepareNextEmail m else (m, Cmd.quit)
        | .runes s => if goToLower s = "q" then (m, Cmd.quit) else (m, Cmd.noCmd)
        | _ => (m, Cmd.noCmd)
      | stateError =>
        if k = KeyMsg.enter then (m, Cmd.quit) else (m, Cmd.noCmd)
      | _ => (m, Cmd.noCmd)

/-- The engine transition function (source: `appModel.Update`).  The default
branch only advances the spinner, which carries no engine state. -/
def Update (m : AppModel) : Msg → AppModel × Cmd
  | .windowSize w h => (handleWindowSize m w h, Cmd.noCmd)
  | .key k => handleKeyMsg m k
  | .newEmail email resp err =>
    match err with
    | some e => fail m e
    | none =>
      let m1 := { m with email := email, response := resp }
      if hasActions m1 then (setView m1 stateSummary "", Cmd.noCmd)
      else (setView m1 stateDone "No actions to review.", Cmd.noCmd)
  | .actionUpdated index action err =>
    match err with
    | some e => fail m e
    | none =>
      let m1 :=
        match actionAt m index with
        | some _ =>
          { m with response := m.response.map (fun r =>
              { r with proposedActions := r.proposedActions.set index.toNat action }) }
        | none => m
      if (actionAt m1 (index + 1)).isSome then
        (setView { m1 with currentAction := index + 1 } stateReview
          (successStyle "Action updated successfully."), Cmd.tick)
      else
        (setView m1 stateDone (successStyle "All actions reviewed."), Cmd.tick)
  | .tickMsg => (m, Cmd.noCmd)

/-- The four fixed sample emails (`buildSampleEmails`). -/
def buildSampleEmails : List Email :=
  [ { mailID := "mail-1",
      threadID := "thread-team-lunch",
      fromName := "Jamie Lee",
      fromEmail := "jamie.lee@example.com",
      toAddrs := ["user@example.com"],
      cc := [],
      subject := "Team Lunch Catch-Up?",
      body := "Hi Adrian,\n\nIt\x27s been a while since the Mobile team grabbed lunch together. Are you free next week for a quick catch-up? I was thinking something casual near the office. Let me know what days work and I\x27ll loop in Taylor to help lock it down.\n\nThanks!\nJamie" },
    { mailID := "mail-2",
      threadID := "thread-team-lunch",
      fromName := "Taylor Brooks",
      fromEmail := "taylor.brooks@example.com",
      toAddrs := ["user@example.com", "jamie.lee@example.com"],
      cc := [],
      subject := "Re: Team Lunch Catch-Up?",
      body := "Hi both,\n\nGreat! I can hold a 45-minute slot on either Tuesday at 12:00 PM or Thursday at 12:30 PM. Let me know which one you prefer and I\x27ll send the calendar invite.\n\nThanks,\nTaylor" },
    { mailID := "mail-3",
      threadID := "thread-team-lunch",
      fromName := "Jamie Lee",
      fromEmail := "jamie.lee@example.com",
      toAddrs := ["taylor.brooks@example.com"],
      cc := ["user@example.com"],
      subject := "Re: Team Lunch Catch-Up?",
      body := "Taylor,\n\nLet\x27s go with Tuesday at 12:00 PM. Adrian and I will meet you in the lobby and walk over to Bella\x27s Deli. Please send the invite when you have a minute.\n\nThanks!\nJamie" },
    { mailID := "mail-4",
      threadID := "thread-team-lunch",
      fromName := "Taylor Brooks",
      fromEmail := "taylor.brooks@example.com",
      toAddrs := ["user@example.com", "jamie.lee@example.com"],
      cc := [],
      subject := "Calendar Invite: Tuesday Lunch at Bella\x27s Deli",
      body := "Calendar invite sent for Tuesday at 12:00 PM at Bella\x27s Deli. See you both then!\n\nTaylor" } ]

/-- The fallback sample email (`buildSampleEmail`); its mail id embeds the
current clock, passed here as an argument.  This is only reached if
`buildSampleEmails` were empty, which it is not. -/
def buildSampleEmail (nanos : Int) : Email :=
  { mailID := "mail-" ++ toString nanos,
    threadID := "thread-project-launch",
    fromName := "Priya Singh",
    fromEmail := "pm@example.com",
    toAddrs := ["alice.johnson@example.com", "diego.martinez@example.com"],
    cc := ["finance@example.com", "product@example.com"],
    subject := "Re: Project Launch - Kickoff Prep",
    body := "Looks solid now! Finance confirmed the numbers on slide 6. I suggest we trim slide 9 a bit -- too much detail for kickoff. Otherwise, I think we\x27re ready to present tomorrow. Please let me know if you\x27re available. Please respond.\n\n- Priya" }

/-- `newAppModel` (the zero session with the configured editor and viewport). -/
def newAppModel : AppModel := {}

/-- `appModel.Init`: install the sample emails and prepare the first one.
The empty-list fallback is dead code (`buildSampleEmails` has four entries);
the clock argument of the fallback is irrelevant and fixed to 0. -/
def initModel : AppModel × Cmd :=
  let emails := buildSampleEmails
  let emails := if emails.length = 0 then [buildSampleEmail 0] else emails
  prepareEmail { newAppModel with emails := emails } 0

/-- The `/action/approve` request body (source: `APIClient.ApproveAction`). -/
def approveRequest (actionID : String) : Obj := [("action_id", .str actionID)]

/-- The `/action/reject` request body (source: `APIClient.RejectAction`). -/
def rejectRequest (actionID : String) : Obj := [("action_id", .str actionID)]

/-- The `/action/modify` request body (source: `APIClient.ModifyAction`):
it always records preferences server-side, and `apply_to_general_preferences`
carries the operator\x27s scope choice. -/
def modifyRequest (actionID : String) (payload : Option Obj) (applyToGeneral : Bool) : Obj :=
  [("action_id", .str actionID),
   ("payload", optObjJson payload),
   ("record_preferences", .bool true),
   ("apply_to_general_preferences", .bool applyToGeneral)]

/-- Field lookup in a request body. -/
def lookupField (fs : Obj) (k : String) : Option JsonValue :=
  (fs.find? (fun p => p.1 == k)).map Prod.snd

/-! Projection lemmas: `refreshViewport` and `setView` only touch the
viewport (and view/status for `setView`). -/

@[simp] theorem refreshViewport_view (m : AppModel) (b : Bool) :
    (refreshViewport m b).view = m.view := by
  by_cases h : viewUsesViewport m.view <;> simp [refreshViewport, h]

@[simp] theorem refreshViewport_status (m : AppModel) (b : Bool) :
    (refreshViewport m b).status = m.status := by
  by_cases h : viewUsesViewport m.view <;> simp [refreshViewport, h]

@[simp] theorem refreshViewport_email (m : AppModel) (b : Bool) :
    (refreshViewport m b).email = m.email := by
  by_cases h : viewUsesViewport m.view <;> simp [refreshViewport, h]

@[simp] theorem refreshViewport_emails (m : AppModel) (b : Bool) :
    (refreshViewport m b).emails = m.emails := by
  by_cases h : viewUsesViewport m.view <;> simp [refreshViewport, h]

@[simp] theorem refreshViewport_currentEmail (m : AppModel) (b : Bool) :
    (refreshViewport m b).currentEmail = m.currentEmail := by
  by_cases h : viewUsesViewport m.view <;> simp [refreshViewport, h]

@[simp] theorem refreshViewport_response (m : AppModel) (b : Bool) :
    (refreshViewport m b).response = m.response := by
  by_cases h : viewUsesViewport m.view <;> simp [refreshViewport, h]

@[simp] theorem refreshViewport_currentAction (m : AppModel) (b : Bool) :
    (refreshViewport m b).currentAction = m.currentAction := by
  by_cases h : viewUsesViewport m.view <;> simp [refreshViewport, h]

@[simp] theorem refreshViewport_editor (m : AppModel) (b : Bool) :
    (refreshViewport m b).editor = m.editor := by
  by_cases h : viewUsesViewport m.view <;> simp [refreshViewport, h]

@[simp] theorem refreshViewport_editorErr (m : AppModel) (b : Bool) :
    (refreshViewport m b).editorErr = m.editorErr := by
  by_cases h : viewUsesViewport m.view <;> simp [refreshViewport, h]

@[simp] theorem refreshViewport_pending (m : AppModel) (b : Bool) :
    (refreshViewport m b).pending = m.pending := by
  by_cases h : viewUsesViewport m.view <;> simp [refreshViewport, h]

@[simp] theorem refreshViewport_err (m : AppModel) (b : Bool) :
    (refreshViewport m b).err = m.err := by
  by_cases h : viewUsesViewport m.view <;> simp [refreshViewport, h]

@[simp] theorem setView_view (m : AppModel) (v : ViewState) (s : String) :
    (setView m v s).view = v := by simp [setView]

@[simp] theorem setView_status (m : AppModel) (v : ViewState) (s : String) :
    (setView m v s).status = s := by simp [setView]

@[simp] theorem setView_email (m : AppModel) (v : ViewState) (s : String) :
    (setView m v s).email = m.email := by simp [setView]

@[simp] theorem setView_emails (m : AppModel) (v : ViewState) (s : String) :
    (setView m v s).emails = m.emails := by simp [setView]

@[simp] theorem setView_currentEmail (m : AppModel) (v : ViewState) (s : String) :
    (setView m v s).currentEmail = m.currentEmail := by simp [setView]

@[simp] theorem setView_response (m : AppModel) (v : ViewState) (s : String) :
    (setView m v s).response = m.response := by simp [setView]

@[simp] theorem setView_currentAction (m : AppModel) (v : ViewState) (s : String) :
    (setView m v s).currentAction = m.currentAction := by simp [setView]

@[simp] theorem setView_editor (m : AppModel) (v : ViewState) (s : String) :
    (setView m v s).editor = m.editor := by simp [setView]

@[simp] theorem setView_editorErr (m : AppModel) (v : ViewState) (s : String) :
    (setView m v s).editorErr = m.editorErr := by simp [setView]

@[simp] theorem setView_pending (m : AppModel) (v : ViewState) (s : String) :
    (setView m v s).pending = m.pending := by simp [setView]

@[simp] theorem setView_err (m : AppModel) (v : ViewState) (s : String) :
    (setView m v s).err = m.err := by simp [setView]

/-- C7: processing a resize event leaves the screen, the action index, the
current email, the email list and cursor, the submission result with all its
stored actions, the pending edit, the recorded error, the status line, the
editor buffer and the inline editor error unchanged, and issues no command;
only viewport/editor geometry and the re-rendered viewport content (with its
scroll position reset to top) can change. -/
theorem resize_preserves_engine_state (m : AppModel) (w h : Int) :
    (Update m (.windowSize w h)).1.view = m.view ∧
    (Update m (.windowSize w h)).1.currentAction = m.currentAction ∧
    (Update m (.windowSize w h)).1.email = m.email ∧
    (Update m (.windowSize w h)).1.emails = m.emails ∧
    (Update m (.windowSize w h)).1.currentEmail = m.currentEmail ∧
    (Update m (.windowSize w h)).1.response = m.response ∧
    (Update m (.windowSize w h)).1.pending = m.pending ∧
    (Update m (.windowSize w h)).1.err = m.err ∧
    (Update m (.windowSize w h)).1.status = m.status ∧
    (Update m (.windowSize w h)).1.editor.value = m.editor.value ∧
    (Update m (.windowSize w h)).1.editorErr = m.editorErr ∧
    (Update m (.windowSize w h)).2 = Cmd.noCmd := by
  have hu : Update m (.windowSize w h) = (handleWindowSize m w h, Cmd.noCmd) := rfl
  rw [hu]
  by_cases hg : w ≤ 0 ∨ h ≤ 0 <;> simp [handleWindowSize, hg]

/-- Shape of the error screen text when an error is recorded. -/
theorem renderErrorContent_eq (m : AppModel) (e : String) (h : m.err = some e) :
    renderErrorContent m = "Error\n\n" ++ e ++ "\n\nPress Enter to exit." := by
  have h1 : ("Error" : String) ++ "\n\n" = "Error\n\n" := rfl
  have h2 : ("\n\n" : String) ++ "Press Enter to exit." = "\n\nPress Enter to exit." := rfl
  simp only [renderErrorContent, h, titleStyleRender, errorTextStyle, subtleTextStyle]
  rw [h1, String.append_assoc "Error\n\n" (e ++ "\n\n") "Press Enter to exit.",
    String.append_assoc e "\n\n" "Press Enter to exit.", h2,
    ← String.append_assoc "Error\n\n" e "\n\nPress Enter to exit."]

/-- C5: an error completion of any gateway call (submit-email via
`newEmailMsg`, approve/reject/modify via `actionUpdatedMsg`) moves the engine
to the error screen, records exactly that error, renders its message text in
the error screen content (which is installed in the viewport), and the
confirm key on the error screen ends the session. -/
theorem gateway_error_shows_error_screen :
    (∀ (m : AppModel) (email : Email) (resp : Option NewEmailResponse) (e : String),
      (Update m (.newEmail email resp (some e))).1.view = stateError ∧
      (Update m (.newEmail email resp (some e))).1.err = some e ∧
      renderErrorContent (Update m (.newEmail email resp (some e))).1 =
        "Error\n\n" ++ e ++ "\n\nPress Enter to exit." ∧
      (Update m (.newEmail email resp (some e))).1.viewport.content =
        "Error\n\n" ++ e ++ "\n\nPress Enter to exit." ∧
      (Update m (.newEmail email resp (some e))).2 = Cmd.noCmd) ∧
    (∀ (m : AppModel) (i : Int) (a : Action) (e : String),
      (Update m (.actionUpdated i a (some e))).1.view = stateError ∧
      (Update m (.actionUpdated i a (some e))).1.err = some e ∧
      renderErrorContent (Update m (.actionUpdated i a (some e))).1 =
        "Error\n\n" ++ e ++ "\n\nPress Enter to exit." ∧
      (Update m (.actionUpdated i a (some e))).1.viewport.content =
        "Error\n\n" ++ e ++ "\n\nPress Enter to exit." ∧
      (Update m (.actionUpdated i a (some e))).2 = Cmd.noCmd) ∧
    (∀ m : AppModel, m.view = stateError → Update m (.key .enter) = (m, Cmd.quit)) := by
  have hfail : ∀ (m : AppModel) (e : String),
      (fail m e).1.view = stateError ∧ (fail m e).1.err = some e ∧
      renderErrorContent (fail m e).1 = "Error\n\n" ++ e ++ "\n\nPress Enter to exit." ∧
      (fail m e).1.viewport.content = "Error\n\n" ++ e ++ "\n\nPress Enter to exit." ∧
      (fail m e).2 = Cmd.noCmd := by
    intro m e
    have hsv : (fail m e).1 =
        refreshViewport { m with err := some e, view := stateError, status := "" } true := rfl
    have hcontent : (fail m e).1.viewport.content =
        currentViewContent { m with err := some e, view := stateError, status := "" } := by
      rw [hsv]
      simp [refreshViewport, viewUsesViewport, vpSetContent, vpGotoTop]
    have hcv : currentViewContent { m with err := some e, view := stateError, status := "" } =
        renderErrorContent { m with err := some e, view := stateError, status := "" } := by
      simp [currentViewContent]
    refine ⟨by simp [fail], by simp [fail], ?_, ?_, rfl⟩
    · exact renderErrorContent_eq _ _ (by simp [fail])
    · rw [hcontent, hcv, renderErrorContent_eq _ e rfl]
  refine ⟨fun m email resp e => hfail m e, fun m i a e => hfail m e, fun m hv => ?_⟩
  have hk : (KeyMsg.enter ≠ KeyMsg.ctrlC) := by decide
  simp [Update, handleKeyMsg, hk, scrollViewport, hv]

/-- Concrete error-screen model used to exercise the error-path theorems. -/
def cexErrorModel : AppModel :=
  { view := stateError, err := some "post /new_email: status 500: boom" }

/-- Witness for `gateway_error_shows_error_screen` at concrete inputs. -/
theorem gateway_error_shows_error_screen_witness :
    (Update { view := stateReview : AppModel } (.newEmail {} none (some "boom"))).1.view =
        stateError ∧
    Update cexErrorModel (.key .enter) = (cexErrorModel, Cmd.quit) := by
  exact ⟨(gateway_error_shows_error_screen.1 { view := stateReview } {} none "boom").1,
    gateway_error_shows_error_screen.2.2 cexErrorModel rfl⟩

/-- C6 (amended): the quit key `q` ends the process from the `Done` screen,
but on the `Error` screen it is ignored — there the session ends only via the
confirm key (or Ctrl+C, which quits from every screen). -/
theorem quit_key_done_not_error (m : AppModel) :
    (m.view = stateDone → Update m (.key (.runes "q")) = (m, Cmd.quit)) ∧
    (m.view = stateError → Update m (.key (.runes "q")) = (m, Cmd.noCmd)) ∧
    (Update m (.key .ctrlC) = (m, Cmd.quit)) := by
  have hk : (KeyMsg.runes "q" ≠ KeyMsg.ctrlC) := by decide
  have hq : goToLower "q" = "q" := by decide
  have hne : (KeyMsg.runes "q" ≠ KeyMsg.enter) := by decide
  refine ⟨fun hv => ?_, fun hv => ?_, ?_⟩
  · simp [Update, handleKeyMsg, hk, scrollViewport, hv, hq]
  · simp [Update, handleKeyMsg, hk, scrollViewport, hv, hne]
  · simp [Update, handleKeyMsg]

/-- Witness for `quit_key_done_not_error` at a concrete done-screen model. -/
theorem quit_key_done_not_error_witness :
    Update { view := stateDone : AppModel } (.key (.runes "q")) =
      ({ view := stateDone : AppModel }, Cmd.quit) :=
  (quit_key_done_not_error { view := stateDone }).1 rfl

/-- Counterexample to C6 as stated: on the `Error` screen the quit key `q`
does not end the process — the update returns no command at all (the code
only honours Enter there, matching its own on-screen instruction). -/
theorem quit_key_on_error_counterexample :
    cexErrorModel.view = stateError ∧
    (Update cexErrorModel (.key (.runes "q"))).2 = Cmd.noCmd ∧
    (Update cexErrorModel (.key (.runes "q"))).2 ≠ Cmd.quit ∧
    (Update cexErrorModel (.key (.runes "q"))).1 = cexErrorModel := by
  refine ⟨rfl, rfl, ?_, rfl⟩
  intro h
  rw [show (Update cexErrorModel (.key (.runes "q"))).2 = Cmd.noCmd from rfl] at h
  exact Cmd.noConfusion h

/-- C9: the confirm key on the `Done` screen advances to the next sample
email when one remains — resetting the submission result, the pending edit,
the action index, the inline editor error and the recorded error exactly as a
fresh load does, and moving to the email preview — and ends the process when
none remains. -/
theorem done_enter_advances_or_quits (m : AppModel) (hv : m.view = stateDone)
    (hge : 0 ≤ m.currentEmail) :
    (hasMoreEmails m = true →
      (Update m (.key .enter)).1.view = statePreviewEmail ∧
      (Update m (.key .enter)).1.response = none ∧
      (Update m (.key .enter)).1.pending = none ∧
      (Update m (.key .enter)).1.currentAction = 0 ∧
      (Update m (.key .enter)).1.editorErr = "" ∧
      (Update m (.key .enter)).1.err = none ∧
      (Update m (.key .enter)).1.currentEmail = m.currentEmail + 1 ∧
      (Update m (.key .enter)).1.email = m.emails.getD (m.currentEmail + 1).toNat {} ∧
      (Update m (.key .enter)).1.status = previewInstruction ∧
      (Update m (.key .enter)).2 = Cmd.noCmd) ∧
    (hasMoreEmails m = false → Update m (.key .enter) = (m, Cmd.quit)) := by
  have hk : (KeyMsg.enter ≠ KeyMsg.ctrlC) := by decide
  constructor
  · intro hmore
    have hlt : m.currentEmail + 1 < (m.emails.length : Int) := by
      simpa [hasMoreEmails] using hmore
    have hneg : ¬ (m.currentEmail + 1 < 0) := by omega
    have hlen : ¬ ((m.emails.length : Int) ≤ m.currentEmail + 1) := not_le.mpr hlt
    simp [Update, handleKeyMsg, hk, scrollViewport, hv, hmore, prepareNextEmail,
      hlen, prepareEmail, hneg, List.getD]
  · intro hnone
    simp [Update, handleKeyMsg, hk, scrollViewport, hv, hnone]

/-- Done-screen model with a second sample email remaining. -/
def doneWithMore : AppModel := { view := stateDone, emails := [{ mailID := "m1" }, { mailID := "m2" }], currentEmail := 0 }

/-- Done-screen model with no sample email remaining. -/
def doneLast : AppModel := { view := stateDone, emails := [{ mailID := "m1" }], currentEmail := 0 }

/-- Witness for `done_enter_advances_or_quits`: a concrete done-screen model
with one more sample email advances, and one without quits. -/
theorem done_enter_advances_or_quits_witness :
    (Update doneWithMore (.key .enter)).1.view = statePreviewEmail ∧
    Update doneLast (.key .enter) = (doneLast, Cmd.quit) := by
  refine ⟨((done_enter_advances_or_quits doneWithMore rfl (by decide)).1 (by decide)).1, ?_⟩
  exact (done_enter_advances_or_quits doneLast rfl (by decide)).2 (by decide)

/-- The inline validation message is never empty. -/
theorem invalid_json_ne_empty (e : String) : "Invalid JSON: " ++ e ≠ "" := by
  intro h
  have hl := congrArg String.length h
  rw [String.length_append] at hl
  have h14 : ("Invalid JSON: " : String).length = 14 := by decide
  have h0 : ("" : String).length = 0 := rfl
  rw [h14, h0] at hl
  omega

/-- C2 (amended): saving the payload buffer parses it with the Go JSON
decoder after trimming; a top-level object is stored as the pending edit,
clears the inline error and moves to the preference prompt; empty input and
any parse or type failure (arrays, scalars other than `null`, malformed text)
keep the editor screen with a non-empty inline error and the pending edit
unchanged; the JSON literal `null` is also accepted (the decoder leaves the
map nil), moving to the prompt with a nil pending edit.  In every case zero
gateway calls are issued. -/
theorem payload_save_validation (m : AppModel) (hv : m.view = stateEditingPayload) :
    ((Update m (.key .ctrlS)).2.calls = [] ∧ (Update m (.key .ctrlS)).2.quits = false) ∧
    (trimSpace m.editor.value = "" →
      (Update m (.key .ctrlS)).1.view = stateEditingPayload ∧
      (Update m (.key .ctrlS)).1.editorErr = "Payload cannot be empty." ∧
      (Update m (.key .ctrlS)).1.pending = m.pending) ∧
    (∀ fs : Obj, trimSpace m.editor.value ≠ "" →
      unmarshalObj (trimSpace m.editor.value) = .ok (some fs) →
      (Update m (.key .ctrlS)).1.view = statePromptGeneral ∧
      (Update m (.key .ctrlS)).1.pending = some fs ∧
      (Update m (.key .ctrlS)).1.editorErr = "") ∧
    (trimSpace m.editor.value ≠ "" →
      unmarshalObj (trimSpace m.editor.value) = .ok none →
      (Update m (.key .ctrlS)).1.view = statePromptGeneral ∧
      (Update m (.key .ctrlS)).1.pending = none ∧
      (Update m (.key .ctrlS)).1.editorErr = "") ∧
    (∀ e : String, trimSpace m.editor.value ≠ "" →
      unmarshalObj (trimSpace m.editor.value) = .error e →
      (Update m (.key .ctrlS)).1.view = stateEditingPayload ∧
      (Update m (.key .ctrlS)).1.editorErr = "Invalid JSON: " ++ e ∧
      (Update m (.key .ctrlS)).1.editorErr ≠ "" ∧
      (Update m (.key .ctrlS)).1.pending = m.pending) := by
  have hks : (KeyMsg.ctrlS ≠ KeyMsg.ctrlC) := by decide
  have hupd : Update m (.key .ctrlS) = handlePayloadKey m .ctrlS := by
    simp [Update, handleKeyMsg, hks, scrollViewport, hv]
  have hpk : handlePayloadKey m .ctrlS =
      (if trimSpace m.editor.value = "" then
        ({ m with editorErr := "Payload cannot be empty." }, Cmd.noCmd)
      else
        match unmarshalObj (trimSpace m.editor.value) with
        | .error e => ({ m with editorErr := "Invalid JSON: " ++ e }, Cmd.noCmd)
        | .ok parsed =>
          (setView { m with pending := parsed, editorErr := "" } statePromptGeneral
            "Apply extracted preferences to general profile? (y/N)", Cmd.noCmd)) := rfl
  rw [hupd, hpk]
  by_cases hraw : trimSpace m.editor.value = ""
  · simp [hraw, Cmd.calls, Cmd.quits, hv]
  · cases hun : unmarshalObj (trimSpace m.editor.value) with
    | error e => simp [hraw, hun, Cmd.calls, Cmd.quits, invalid_json_ne_empty, hv]
    | ok parsed => cases parsed <;> simp [hraw, hun, Cmd.calls, Cmd.quits]

/-- Editor-screen model holding the buffer text `\x7b"k": 1\x7d`. -/
def editModelGoodJson : AppModel :=
  { view := stateEditingPayload, editor := { value := "\x7b\"k\": 1\x7d" } }

/-- Witness for `payload_save_validation`: saving the buffer `\x7b"k": 1\x7d`
stores the parsed object and reaches the preference prompt. -/
theorem payload_save_validation_witness :
    (Update editModelGoodJson (.key .ctrlS)).1.view = statePromptGeneral ∧
    (Update editModelGoodJson (.key .ctrlS)).1.pending = some [("k", JsonValue.num 1)] ∧
    (Update editModelGoodJson (.key .ctrlS)).1.editorErr = "" := by
  exact (payload_save_validation editModelGoodJson rfl).2.2.1 [("k", JsonValue.num 1)]
    (by decide) rfl

/-- Editor-screen model holding the buffer text `null`. -/
def editModelNull : AppModel :=
  { view := stateEditingPayload, editor := { value := "null" } }

/-- Counterexample to C2 as stated: the buffer `null` is a scalar, not a
JSON object, yet saving it leaves the editor for the preference prompt with
no inline error, because Go\x27s decoder accepts the JSON literal `null`
into a map (leaving it nil). -/
theorem payload_save_null_counterexample :
    unmarshalObj "null" = .ok none ∧
    (Update editModelNull (.key .ctrlS)).1.view = statePromptGeneral ∧
    (Update editModelNull (.key .ctrlS)).1.view ≠ stateEditingPayload ∧
    (Update editModelNull (.key .ctrlS)).1.editorErr = "" ∧
    (Update editModelNull (.key .ctrlS)).1.pending = none := by
  refine ⟨rfl, rfl, ?_, rfl, rfl⟩
  intro h
  rw [show (Update editModelNull (.key .ctrlS)).1.view = statePromptGeneral from rfl] at h
  exact ViewState.noConfusion h

/-- C4: with a pending edit saved, the preference prompt issues exactly one
modify call: the apply-globally key sends it with
`apply_to_general_preferences = true`; the per-recipient key and the
default-confirm key send it with `false`; the pending object rides along
unchanged; and every modify request body fixes `record_preferences = true`. -/
theorem prompt_issues_single_modify (m : AppModel) (p : Obj)
    (hv : m.view = statePromptGeneral) (hp : m.pending = some p) :
    (Update m (.key (.runes "y"))).2.calls =
        [GatewayCall.modifyAction m.currentAction (currentActionID m) (some p) true] ∧
    (Update m (.key (.runes "y"))).1.view = stateSubmittingAction ∧
    (Update m (.key (.runes "n"))).2.calls =
        [GatewayCall.modifyAction m.currentAction (currentActionID m) (some p) false] ∧
    (Update m (.key (.runes "n"))).1.view = stateSubmittingAction ∧
    (Update m (.key .enter)).2.calls =
        [GatewayCall.modifyAction m.currentAction (currentActionID m) (some p) false] ∧
    (Update m (.key .enter)).1.view = stateSubmittingAction ∧
    (∀ (id : String) (pl : Option Obj) (b : Bool),
      lookupField (modifyRequest id pl b) "record_preferences" = some (.bool true)) := by
  have hky : (KeyMsg.runes "y" ≠ KeyMsg.ctrlC) := by decide
  have hkn : (KeyMsg.runes "n" ≠ KeyMsg.ctrlC) := by decide
  have hke : (KeyMsg.enter ≠ KeyMsg.ctrlC) := by decide
  have hy : goToLower "y" = "y" := by decide
  have hn : goToLower "n" = "n" := by decide
  have hny : ¬ (goToLower "n" = "y") := by decide
  have hb1 : (("action_id" : String) == "record_preferences") = false := by decide
  have hb2 : (("payload" : String) == "record_preferences") = false := by decide
  have hb3 : (("record_preferences" : String) == "record_preferences") = true := by decide
  simp [Update, handleKeyMsg, hky, hkn, hke, scrollViewport, hv, handlePromptKey, hy, hn,
    hny, submitModifiedAction, beginActionUpdate, modifyActionCmd, Cmd.calls, hp,
    lookupField, modifyRequest, List.find?, hb1, hb2, hb3]

/-- The prompt-screen model reached by actually saving `\x7b"k": 1\x7d`. -/
def promptModelAfterSave : AppModel := (Update editModelGoodJson (.key .ctrlS)).1

/-- Witness for `prompt_issues_single_modify` on the model reached by a real
save of `\x7b"k": 1\x7d`. -/
theorem prompt_issues_single_modify_witness :
    (Update promptModelAfterSave (.key (.runes "y"))).2.calls =
      [GatewayCall.modifyAction promptModelAfterSave.currentAction
        (currentActionID promptModelAfterSave) (some [("k", JsonValue.num 1)]) true] :=
  (prompt_issues_single_modify promptModelAfterSave [("k", JsonValue.num 1)] rfl rfl).1

/-! Trace machinery for the review-completion run (claim about repeatedly
completing actions). -/

/-- Iterate `Update`, keeping only the model. -/
def iterUpdate : AppModel → List Msg → AppModel
  | m, [] => m
  | m, g :: gs => iterUpdate (Update m g).1 gs

/-- All engine states along a message sequence (initial state included). -/
def traceStates : AppModel → List Msg → List AppModel
  | m, [] => [m]
  | m, g :: gs => m :: traceStates (Update m g).1 gs

/-- The successful completion messages for consecutive action indices
starting at `start`, carrying the gateway\x27s updated action records. -/
def reviewMsgs : Nat → List Action → List Msg
  | _, [] => []
  | start, a :: as => .actionUpdated (start : Int) a none :: reviewMsgs (start + 1) as

/-- How many adjacent pairs of a trace of action indices differ — the number
of times the index was advanced. -/
def advanceCount : List Int → Nat
  | a :: b :: rest => (if b ≠ a then 1 else 0) + advanceCount (b :: rest)
  | _ => 0

/-- Overwrite consecutive records from position `start`. -/
def setRange : List Action → Nat → List Action → List Action
  | l, _, [] => l
  | l, s, a :: as => setRange (l.set s a) (s + 1) as

theorem setRange_length (news : List Action) (l : List Action) (s : Nat) :
    (setRange l s news).length = l.length := by
  induction news generalizing l s with
  | nil => rfl
  | cons a as ih => simp [setRange, ih]

theorem setRange_getElem? (news : List Action) (l : List Action) (s : Nat) (j : Nat)
    (hb : s + news.length ≤ l.length) :
    (setRange l s news)[j]? =
      if s ≤ j ∧ j < s + news.length then news[j - s]? else l[j]? := by
  induction news generalizing l s with
  | nil =>
    simp only [setRange, List.length_nil, Nat.add_zero]
    rw [if_neg (by omega)]
  | cons a as ih =>
    simp only [List.length_cons] at hb
    rw [setRange, ih (l.set s a) (s + 1) (by rw [List.length_set]; omega)]
    simp only [List.length_cons]
    by_cases h1 : s + 1 ≤ j ∧ j < s + 1 + as.length
    · rw [if_pos h1, if_pos (by omega)]
      have hj : j - s = (j - (s + 1)) + 1 := by omega
      rw [hj, List.getElem?_cons_succ]
    · rw [if_neg h1]
      by_cases h2 : j = s
      · subst h2
        rw [if_pos (by omega)]
        have hj0 : j - j = 0 := by omega
        rw [hj0, List.getElem?_cons_zero, List.getElem?_set_self (by omega)]
      · rw [if_neg (by omega), List.getElem?_set_ne (by omega)]

theorem reviewMsgs_take (acts : List Action) (start k : Nat) :
    List.take k (reviewMsgs start acts) = reviewMsgs start (acts.take k) := by
  induction acts generalizing start k with
  | nil => simp [reviewMsgs]
  | cons a as ih =>
    cases k with
    | zero => simp [reviewMsgs]
    | succ k => simp [reviewMsgs, ih]

/-- `actionAt` at a natural index below the length, when a response exists. -/
theorem actionAt_natCast (m : AppModel) (r : NewEmailResponse) (i : Nat)
    (hresp : m.response = some r) (hi : i < r.proposedActions.length) :
    actionAt m (i : Int) = r.proposedActions[i]? := by
  simp only [actionAt, hresp]
  rw [if_neg (by omega)]
  simp

/-- `actionAt` beyond the last index is `none`. -/
theorem actionAt_out (m : AppModel) (r : NewEmailResponse) (j : Int)
    (hresp : m.response = some r) (hj : (r.proposedActions.length : Int) ≤ j) :
    actionAt m j = none := by
  simp only [actionAt, hresp]
  rw [if_pos (Or.inr hj)]

/-- A submission result with its action list replaced. -/
def withActions (r : NewEmailResponse) (acts : List Action) : NewEmailResponse :=
  { r with proposedActions := acts }

@[simp] theorem withActions_proposedActions (r : NewEmailResponse) (acts : List Action) :
    (withActions r acts).proposedActions = acts := rfl

/-- The model after record `i` is overwritten by a completion (the
`*action = msg.action` assignment). -/
def afterOverwrite (m : AppModel) (r : NewEmailResponse) (i : Nat) (a : Action) : AppModel :=
  { m with response := some (withActions r (r.proposedActions.set i a)) }

/-- A successful completion for index `i` rewrites the engine exactly as the
`actionUpdatedMsg` arm of `Update` does: record `i` is overwritten, and the
engine either advances to review index `i+1` or finishes. -/
theorem update_actionOk_eq (m : AppModel) (r : NewEmailResponse) (i : Nat) (a : Action)
    (hresp : m.response = some r) (hi : i < r.proposedActions.length) :
    Update m (.actionUpdated (i : Int) a none) =
      (if (actionAt (afterOverwrite m r i a) ((i : Int) + 1)).isSome
       then
        (setView { afterOverwrite m r i a with currentAction := (i : Int) + 1 } stateReview
          (successStyle "Action updated successfully."), Cmd.tick)
       else
        (setView (afterOverwrite m r i a) stateDone (successStyle "All actions reviewed."),
          Cmd.tick)) := by
  have hAt : actionAt m (i : Int) = some (r.proposedActions[i]) := by
    rw [actionAt_natCast m r i hresp hi, List.getElem?_eq_getElem hi]
  simp only [Update, hAt, hresp, Option.map_some, Int.toNat_natCast]
  rfl

@[simp] theorem afterOverwrite_response (m : AppModel) (r : NewEmailResponse) (i : Nat)
    (a : Action) :
    (afterOverwrite m r i a).response = some (withActions r (r.proposedActions.set i a)) := rfl

@[simp] theorem afterOverwrite_currentAction (m : AppModel) (r : NewEmailResponse) (i : Nat)
    (a : Action) : (afterOverwrite m r i a).currentAction = m.currentAction := rfl

/-- Mid-run completion: the next index is still in range. -/
theorem update_actionOk_mid (m : AppModel) (r : NewEmailResponse) (i : Nat) (a : Action)
    (hresp : m.response = some r) (hi : i + 1 < r.proposedActions.length) :
    (Update m (.actionUpdated (i : Int) a none)).1.view = stateReview ∧
    (Update m (.actionUpdated (i : Int) a none)).1.currentAction = ((i + 1 : Nat) : Int) ∧
    (Update m (.actionUpdated (i : Int) a none)).1.response =
      some (withActions r (r.proposedActions.set i a)) := by
  rw [update_actionOk_eq m r i a hresp (by omega)]
  have hnext : actionAt (afterOverwrite m r i a) ((i : Int) + 1) =
      (r.proposedActions.set i a)[i + 1]? := by
    have hcast : ((i : Int) + 1) = ((i + 1 : Nat) : Int) := by push_cast; ring
    rw [hcast]
    exact actionAt_natCast _ (withActions r (r.proposedActions.set i a)) (i + 1) rfl
      (by simp [List.length_set]; omega)
  have hsome : ((r.proposedActions.set i a)[i + 1]?).isSome := by
    have hlt : i + 1 < (r.proposedActions.set i a).length := by
      rw [List.length_set]
      omega
    rw [List.getElem?_eq_getElem hlt]
    rfl
  rw [hnext, if_pos hsome]
  refine ⟨by simp, ?_, by simp⟩
  rw [setView_currentAction]
  show (i : Int) + 1 = ((i + 1 : Nat) : Int)
  push_cast
  ring

/-- Final completion: the next index is out of range, the run finishes. -/
theorem update_actionOk_last (m : AppModel) (r : NewEmailResponse) (i : Nat) (a : Action)
    (hresp : m.response = some r) (hi : i < r.proposedActions.length)
    (hlast : i + 1 = r.proposedActions.length) :
    (Update m (.actionUpdated (i : Int) a none)).1.view = stateDone ∧
    (Update m (.actionUpdated (i : Int) a none)).1.currentAction = m.currentAction ∧
    (Update m (.actionUpdated (i : Int) a none)).1.response =
      some (withActions r (r.proposedActions.set i a)) := by
  rw [update_actionOk_eq m r i a hresp hi]
  have hnone : actionAt (afterOverwrite m r i a) ((i : Int) + 1) = none := by
    apply actionAt_out _ (withActions r (r.proposedActions.set i a)) _ rfl
    simp [List.length_set]
    omega
  rw [hnone]
  simp

theorem traceStates_cons (m : AppModel) (g : Msg) (gs : List Msg) :
    traceStates m (g :: gs) = m :: traceStates (Update m g).1 gs := rfl

theorem traceStates_eq_cons (m : AppModel) (msgs : List Msg) :
    ∃ t, traceStates m msgs = m :: t := by
  cases msgs <;> exact ⟨_, rfl⟩

theorem advanceCount_pair (x y : Int) (t : List Int) :
    advanceCount (x :: y :: t) = (if y ≠ x then 1 else 0) + advanceCount (y :: t) := rfl

/-- Mid-run characterization: completing a block of actions whose indices all
stay strictly below the last one overwrites exactly those records, advances
the index once per completion, and leaves the engine on the review screen. -/
theorem run_review_mid (acts : List Action) (start : Nat) (m : AppModel)
    (r : NewEmailResponse) (hresp : m.response = some r)
    (hcur : m.currentAction = (start : Int))
    (hlt : start + acts.length < r.proposedActions.length) :
    (iterUpdate m (reviewMsgs start acts)).response =
      some (withActions r (setRange r.proposedActions start acts)) ∧
    (iterUpdate m (reviewMsgs start acts)).currentAction = ((start + acts.length : Nat) : Int) ∧
    (acts ≠ [] → (iterUpdate m (reviewMsgs start acts)).view = stateReview) := by
  induction acts generalizing start m r with
  | nil =>
    refine ⟨hresp, by simpa using hcur, fun h => absurd rfl h⟩
  | cons a as ih =>
    simp only [List.length_cons] at hlt
    obtain ⟨hv', hc', hr'⟩ := update_actionOk_mid m r start a hresp (by omega)
    have hstep : iterUpdate m (reviewMsgs start (a :: as)) =
        iterUpdate (Update m (.actionUpdated (start : Int) a none)).1
          (reviewMsgs (start + 1) as) := rfl
    obtain ⟨R, C, V⟩ := ih (start + 1) (Update m (.actionUpdated (start : Int) a none)).1
      (withActions r (r.proposedActions.set start a)) hr' hc'
      (by simp only [withActions_proposedActions, List.length_set]; omega)
    refine ⟨?_, ?_, ?_⟩
    · rw [hstep]
      exact R
    · rw [hstep, C]
      have : (start + 1) + as.length = start + (a :: as).length := by
        simp only [List.length_cons]
        omega
      rw [this]
    · intro _
      rw [hstep]
      cases as with
      | nil => exact hv'
      | cons b bs => exact V (by simp)

/-- Full-run characterization: completing all remaining actions walks the
engine `Review → … → Review → Done`, advancing the index once per completion
except the last, overwriting every remaining record, and finishing on the
done screen with the index still at the last action. -/
theorem run_review (acts : List Action) (start : Nat) (m : AppModel)
    (r : NewEmailResponse) (hresp : m.response = some r)
    (hcur : m.currentAction = (start : Int))
    (hlen : start + acts.length = r.proposedActions.length) (hne : acts ≠ []) :
    ((traceStates m (reviewMsgs start acts)).map AppModel.view =
      m.view :: (List.replicate (acts.length - 1) stateReview ++ [stateDone])) ∧
    advanceCount ((traceStates m (reviewMsgs start acts)).map AppModel.currentAction) =
      acts.length - 1 ∧
    (iterUpdate m (reviewMsgs start acts)).response =
      some (withActions r (setRange r.proposedActions start acts)) ∧
    (iterUpdate m (reviewMsgs start acts)).view = stateDone ∧
    (iterUpdate m (reviewMsgs start acts)).currentAction =
      ((r.proposedActions.length - 1 : Nat) : Int) := by
  induction acts generalizing start m r with
  | nil => exact absurd rfl hne
  | cons a as ih =>
    cases as with
    | nil =>
      simp only [List.length_cons, List.length_nil] at hlen
      obtain ⟨hv', hc', hr'⟩ :=
        update_actionOk_last m r start a hresp (by omega) (by omega)
      refine ⟨?_, ?_, hr', hv', ?_⟩
      · simp [traceStates, reviewMsgs, hv']
      · have : (traceStates m (reviewMsgs start [a])).map AppModel.currentAction =
            [m.currentAction, m.currentAction] := by
          simp [traceStates, reviewMsgs, hc']
        rw [this, advanceCount_pair]
        simp [advanceCount]
      · have hstep1 : iterUpdate m (reviewMsgs start [a]) =
            (Update m (.actionUpdated (start : Int) a none)).1 := rfl
        rw [hstep1, hc', hcur]
        congr 1
        omega
    | cons b bs =>
      simp only [List.length_cons] at hlen
      obtain ⟨hv', hc', hr'⟩ := update_actionOk_mid m r start a hresp (by omega)
      obtain ⟨W, A, R, D, C⟩ := ih (start + 1)
        (Update m (.actionUpdated (start : Int) a none)).1
        (withActions r (r.proposedActions.set start a)) hr' hc'
        (by simp only [withActions_proposedActions, List.length_set, List.length_cons]; omega)
        (by simp)
      have hstep : iterUpdate m (reviewMsgs start (a :: b :: bs)) =
          iterUpdate (Update m (.actionUpdated (start : Int) a none)).1
            (reviewMsgs (start + 1) (b :: bs)) := rfl
      refine ⟨?_, ?_, ?_, by rw [hstep]; exact D, ?_⟩
      · rw [show reviewMsgs start (a :: b :: bs) =
            Msg.actionUpdated (start : Int) a none :: reviewMsgs (start + 1) (b :: bs) from rfl,
          traceStates_cons, List.map_cons, W, hv']
        simp [List.replicate_succ]
      · obtain ⟨t, ht⟩ := traceStates_eq_cons
          (Update m (.actionUpdated (start : Int) a none)).1 (reviewMsgs (start + 1) (b :: bs))
        rw [show reviewMsgs start (a :: b :: bs) =
            Msg.actionUpdated (start : Int) a none :: reviewMsgs (start + 1) (b :: bs) from rfl,
          traceStates_cons, List.map_cons]
        rw [ht] at A ⊢
        rw [List.map_cons] at A ⊢
        rw [advanceCount_pair, A, hc', hcur]
        have hneq : ((start + 1 : Nat) : Int) ≠ (start : Nat) := by omega
        rw [if_pos hneq]
        simp only [List.length_cons]
        omega
      · rw [hstep]
        exact R
      · rw [hstep, C]
        congr 1
        simp only [withActions_proposedActions, List.length_set]

/-- C1 (amended): from the review screen at index 0 over N ≥ 1 proposed
actions, the run of N successful completions returns to `Review` after each
of the first N−1 and transitions to `Done` exactly once, after the Nth
completion and never earlier; each completion overwrites exactly the records
completed so far; and the action index is advanced exactly N−1 times (the
final completion moves to `Done` without advancing it), ending at N−1. -/
theorem review_run_amended (m : AppModel) (r : NewEmailResponse) (newActs : List Action)
    (hresp : m.response = some r) (hview : m.view = stateReview) (hcur : m.currentAction = 0)
    (hN : newActs.length = r.proposedActions.length) (hpos : 1 ≤ r.proposedActions.length) :
    ((traceStates m (reviewMsgs 0 newActs)).map AppModel.view =
      stateReview :: (List.replicate (r.proposedActions.length - 1) stateReview ++ [stateDone])) ∧
    ((traceStates m (reviewMsgs 0 newActs)).map AppModel.view).count stateDone = 1 ∧
    advanceCount ((traceStates m (reviewMsgs 0 newActs)).map AppModel.currentAction) =
      r.proposedActions.length - 1 ∧
    (iterUpdate m (reviewMsgs 0 newActs)).view = stateDone ∧
    (iterUpdate m (reviewMsgs 0 newActs)).currentAction =
      ((r.proposedActions.length - 1 : Nat) : Int) ∧
    (iterUpdate m (reviewMsgs 0 newActs)).response = some (withActions r newActs) ∧
    (∀ k : Nat, k + 1 < r.proposedActions.length →
      (iterUpdate m (List.take (k + 1) (reviewMsgs 0 newActs))).view = stateReview ∧
      (iterUpdate m (List.take (k + 1) (reviewMsgs 0 newActs))).currentAction =
        ((k + 1 : Nat) : Int) ∧
      ∃ r', (iterUpdate m (List.take (k + 1) (reviewMsgs 0 newActs))).response = some r' ∧
        r'.proposedActions.length = r.proposedActions.length ∧
        ∀ j : Nat, r'.proposedActions[j]? =
          (if j ≤ k then newActs[j]? else r.proposedActions[j]?)) := by
  have hnnil : newActs ≠ [] := by
    intro h
    rw [h] at hN
    simp at hN
    omega
  obtain ⟨W, A, R, D, C⟩ := run_review newActs 0 m r hresp (by simpa using hcur)
    (by omega) hnnil
  have hfull : setRange r.proposedActions 0 newActs = newActs := by
    apply List.ext_getElem?
    intro j
    rw [setRange_getElem? newActs r.proposedActions 0 j (by omega)]
    by_cases hj : j < newActs.length
    · rw [if_pos ⟨Nat.zero_le j, by omega⟩]
      simp
    · rw [if_neg (by omega), List.getElem?_eq_none (by omega),
        List.getElem?_eq_none (by omega)]
  rw [hview] at W
  rw [hN] at W A
  refine ⟨W, ?_, A, D, C, by rw [hfull] at R; exact R, ?_⟩
  · rw [W]
    have h1 : (stateReview == stateDone) = false := by decide
    have h2 : (stateDone == stateDone) = true := by decide
    simp [List.count_cons, List.count_append, List.count_replicate, h1, h2]
  · intro k hk
    have htake : List.take (k + 1) (reviewMsgs 0 newActs) =
        reviewMsgs 0 (newActs.take (k + 1)) := reviewMsgs_take newActs 0 (k + 1)
    have hlentake : (newActs.take (k + 1)).length = k + 1 := by
      rw [List.length_take]
      omega
    obtain ⟨R', C', V'⟩ := run_review_mid (newActs.take (k + 1)) 0 m r hresp
      (by simpa using hcur) (by rw [hlentake]; omega)
    have htne : newActs.take (k + 1) ≠ [] := by
      intro h
      rw [h] at hlentake
      simp at hlentake
    refine ⟨?_, ?_, ?_⟩
    · rw [htake]
      exact V' htne
    · rw [htake, C', hlentake]
      simp
    · refine ⟨withActions r (setRange r.proposedActions 0 (newActs.take (k + 1))),
        by rw [htake]; exact R', ?_, ?_⟩
      · simp [setRange_length]
      · intro j
        rw [withActions_proposedActions,
          setRange_getElem? (newActs.take (k + 1)) r.proposedActions 0 j
            (by rw [hlentake]; omega)]
        rw [hlentake]
        by_cases hj : j ≤ k
        · rw [if_pos (by omega), if_pos hj]
          have := List.getElem?_take_of_lt (l := newActs) (m := j - 0) (n := k + 1)
            (by omega)
          simpa using this
        · rw [if_neg (by omega), if_neg hj]

/-- The single-action review model for the index-advance counterexample. -/
def cexReviewResp : NewEmailResponse := { mailID := "m", proposedActions := [{ actionID := "a1", type := "reply", status := "pending" }] }

/-- Review screen at index 0 over that single action. -/
def cexReviewModel : AppModel := { view := stateReview, response := some cexReviewResp, currentAction := 0 }

/-- The gateway\x27s updated record for the single action. -/
def cexNewAction : Action := { actionID := "a1", type := "reply", status := "approved" }

/-- Counterexample to C1 as stated: with N = 1 proposed action, the single
successful completion transitions to `Done` but never advances the action
index — it is advanced 0 times, not N = 1 times. -/
theorem review_run_counterexample :
    cexReviewResp.proposedActions.length = 1 ∧
    advanceCount ((traceStates cexReviewModel
      (reviewMsgs 0 [cexNewAction])).map AppModel.currentAction) = 0 ∧
    (0 : Nat) ≠ 1 ∧
    (iterUpdate cexReviewModel (reviewMsgs 0 [cexNewAction])).view = stateDone ∧
    (iterUpdate cexReviewModel (reviewMsgs 0 [cexNewAction])).currentAction = 0 := by
  exact ⟨rfl, rfl, by decide, rfl, rfl⟩

/-- Two-action review model exercising the amended run theorem. -/
def wReviewResp : NewEmailResponse := { mailID := "m", proposedActions := [{ actionID := "a1", status := "pending" }, { actionID := "a2", status := "pending" }] }

/-- Review screen at index 0 over those two actions. -/
def wReviewModel : AppModel := { view := stateReview, response := some wReviewResp, currentAction := 0 }

/-- The gateway\x27s updated records for the two actions. -/
def wNewActs : List Action := [{ actionID := "a1", status := "approved" }, { actionID := "a2", status := "rejected" }]

/-- Witness for `review_run_amended` on a concrete two-action run. -/
theorem review_run_amended_witness :
    ((traceStates wReviewModel (reviewMsgs 0 wNewActs)).map AppModel.view =
      stateReview :: (List.replicate 1 stateReview ++ [stateDone])) ∧
    advanceCount ((traceStates wReviewModel (reviewMsgs 0 wNewActs)).map
      AppModel.currentAction) = 1 := by
  have h := review_run_amended wReviewModel wReviewResp wNewActs rfl rfl rfl rfl
    (by decide)
  exact ⟨h.1, h.2.2.1⟩

/-! Closed-system semantics: the engine composed with its own dispatched
gateway calls.  A pending entry records the correlation data captured by the
command closure; a completion can only be delivered for a pending call, and
delivering it consumes the entry (each closure produces exactly one
completion message). -/

/-- Correlation data of an outstanding gateway call. -/
inductive Pending : Type where
  | submit (email : Email)
  | action (index : Int) (actionID : String)
deriving DecidableEq

/-- The engine together with its outstanding gateway calls. -/
structure Sys where
  m : AppModel
  pend : List Pending

/-- The pending entry created by dispatching a call. -/
def callToPending : GatewayCall → Pending
  | .submitEmail e => .submit e
  | .approveAction i id => .action i id
  | .rejectAction i id => .action i id
  | .modifyAction i id _ _ => .action i id

/-- Apply an `Update` result: install the new model and enqueue the calls of
the returned command. -/
def dispatch (s : Sys) (mc : AppModel × Cmd) : Sys :=
  { m := mc.1, pend := s.pend ++ (mc.2.calls.map callToPending) }

/-- Deliver the completion of pending call `p` as message `msg`. -/
def deliver (s : Sys) (p : Pending) (msg : Msg) : Sys :=
  { m := (Update s.m msg).1,
    pend := s.pend.erase p ++ ((Update s.m msg).2.calls.map callToPending) }

/-- The zero `Action` a failed call returns (`Action\x7b\x7d` in Go). -/
def zeroAction : Action := {}

/-- One event of the closed system: a key, a resize, a spinner tick, or the
completion (success or error, with arbitrary gateway data) of an outstanding
call. -/
inductive Step : Sys → Sys → Prop where
  | key (s : Sys) (k : KeyMsg) : Step s (dispatch s (Update s.m (.key k)))
  | resize (s : Sys) (w h : Int) : Step s (dispatch s (Update s.m (.windowSize w h)))
  | tick (s : Sys) : Step s (dispatch s (Update s.m .tickMsg))
  | submitOk (s : Sys) (e : Email) (r : NewEmailResponse)
      (h : Pending.submit e ∈ s.pend) :
      Step s (deliver s (.submit e) (.newEmail e (some r) none))
  | submitErr (s : Sys) (e : Email) (msg : String) (h : Pending.submit e ∈ s.pend) :
      Step s (deliver s (.submit e) (.newEmail e none (some msg)))
  | actionOk (s : Sys) (i : Int) (id : String) (a : Action)
      (h : Pending.action i id ∈ s.pend) :
      Step s (deliver s (.action i id) (.actionUpdated i a none))
  | actionErr (s : Sys) (i : Int) (id : String) (msg : String)
      (h : Pending.action i id ∈ s.pend) :
      Step s (deliver s (.action i id) (.actionUpdated i zeroAction (some msg)))

/-- The state after `Init` installs the sample emails and prepares the first. -/
def initSys : Sys := { m := initModel.1, pend := initModel.2.calls.map callToPending }

/-- Reachability of the engine from startup. -/
def Reach (s : Sys) : Prop := Relation.ReflTransGen Step initSys s

/-- The action index is a valid index whenever a non-empty submission result
is installed. -/
def IndexValid (m : AppModel) : Prop :=
  ∀ r : NewEmailResponse, m.response = some r → r.proposedActions ≠ [] →
    0 ≤ m.currentAction ∧ m.currentAction < (r.proposedActions.length : Int)

/-- The inductive invariant of the closed system. -/
structure Inv (s : Sys) : Prop where
  idx : IndexValid s.m
  preview : s.m.view = statePreviewEmail → s.m.currentAction = 0
  summary : s.m.view = stateSummary →
    ∃ r, s.m.response = some r ∧ r.proposedActions ≠ []
  screens : (s.m.view = stateReview ∨ s.m.view = stateEditingPayload ∨
      s.m.view = statePromptGeneral) →
    ∃ r, s.m.response = some r ∧ 0 ≤ s.m.currentAction ∧
      s.m.currentAction < (r.proposedActions.length : Int)
  subPend : ∀ e, Pending.submit e ∈ s.pend →
    s.m.view = stateLoading ∧ s.m.currentAction = 0
  actPend : ∀ i id, Pending.action i id ∈ s.pend →
    s.m.view = stateSubmittingAction ∧
      ∃ r a, s.m.response = some r ∧ 0 ≤ i ∧ i < (r.proposedActions.length : Int) ∧
        r.proposedActions[i.toNat]? = some a ∧ a.actionID = id
  one : s.pend.length ≤ 1

/-- The invariant only reads the view, the action index, the response and
the pending list. -/
theorem Inv_congr (s s' : Sys) (hv : s'.m.view = s.m.view)
    (hc : s'.m.currentAction = s.m.currentAction) (hr : s'.m.response = s.m.response)
    (hp : s'.pend = s.pend) (h : Inv s) : Inv s' := by
  refine ⟨?_, ?_, ?_, ?_, ?_, ?_, ?_⟩
  · intro r h1 h2
    rw [hr] at h1
    rw [hc]
    exact h.idx r h1 h2
  · intro h1
    rw [hv] at h1
    rw [hc]
    exact h.preview h1
  · intro h1
    rw [hv] at h1
    rw [hr]
    exact h.summary h1
  · intro h1
    rw [hv] at h1
    rw [hr, hc]
    exact h.screens h1
  · intro e he
    rw [hp] at he
    rw [hv, hc]
    exact h.subPend e he
  · intro i id hm
    rw [hp] at hm
    rw [hv, hr]
    exact h.actPend i id hm
  · rw [hp]
    exact h.one

/-- A non-loading, non-submitting screen has no outstanding call. -/
theorem pend_nil_of_view (s : Sys) (h : Inv s) (hL : s.m.view ≠ stateLoading)
    (hS : s.m.view ≠ stateSubmittingAction) : s.pend = [] := by
  cases hp : s.pend with
  | nil => rfl
  | cons p t =>
    cases p with
    | submit e =>
      exact absurd (h.subPend e (by rw [hp]; exact List.mem_cons_self _ _)).1 hL
    | action i id =>
      exact absurd (h.actPend i id (by rw [hp]; exact List.mem_cons_self _ _)).1 hS

/-- An outstanding call with the length bound is the whole pending list. -/
theorem pend_singleton (s : Sys) (h : Inv s) (p : Pending) (hp : p ∈ s.pend) :
    s.pend = [p] := by
  cases hl : s.pend with
  | nil => rw [hl] at hp; cases hp
  | cons q t =>
    have hlen := h.one
    rw [hl] at hlen
    simp at hlen
    subst hlen
    rw [hl] at hp
    simp at hp
    rw [hp]

/-- A step whose model keeps the view, index and response, and whose command
carries no call, preserves the invariant. -/
theorem inv_dispatch_congr (s : Sys) (mc : AppModel × Cmd) (hv : mc.1.view = s.m.view)
    (hc : mc.1.currentAction = s.m.currentAction) (hr : mc.1.response = s.m.response)
    (hcalls : mc.2.calls = []) (h : Inv s) : Inv (dispatch s mc) := by
  refine Inv_congr s _ hv hc hr ?_ h
  show s.pend ++ (mc.2.calls.map callToPending) = s.pend
  rw [hcalls]
  simp

theorem inv_tick (s : Sys) (h : Inv s) : Inv (dispatch s (Update s.m .tickMsg)) := by
  exact inv_dispatch_congr s _ rfl rfl rfl rfl h

theorem inv_resize (s : Sys) (h : Inv s) (w hh : Int) :
    Inv (dispatch s (Update s.m (.windowSize w hh))) := by
  refine inv_dispatch_congr s _ ?_ ?_ ?_ rfl h <;>
    by_cases hg : w ≤ 0 ∨ hh ≤ 0 <;> simp [Update, handleWindowSize, hg]

theorem inv_key_loading (s : Sys) (h : Inv s) (k : KeyMsg) (hv : s.m.view = stateLoading) :
    Inv (dispatch s (Update s.m (.key k))) := by
  refine inv_dispatch_congr s _ ?_ ?_ ?_ ?_ h <;>
    cases k <;> simp [Update, handleKeyMsg, scrollViewport, hv, viewUsesViewport, Cmd.calls]

theorem inv_key_submitting (s : Sys) (h : Inv s) (k : KeyMsg)
    (hv : s.m.view = stateSubmittingAction) :
    Inv (dispatch s (Update s.m (.key k))) := by
  refine inv_dispatch_congr s _ ?_ ?_ ?_ ?_ h <;>
    cases k <;> simp [Update, handleKeyMsg, scrollViewport, hv, viewUsesViewport, Cmd.calls]

theorem inv_key_error (s : Sys) (h : Inv s) (k : KeyMsg) (hv : s.m.view = stateError) :
    Inv (dispatch s (Update s.m (.key k))) := by
  refine inv_dispatch_congr s _ ?_ ?_ ?_ ?_ h <;>
    cases k <;>
      simp [Update, handleKeyMsg, scrollViewport, hv, viewUsesViewport, Cmd.calls]

theorem inv_key_preview (s : Sys) (h : Inv s) (k : KeyMsg)
    (hv : s.m.view = statePreviewEmail) :
    Inv (dispatch s (Update s.m (.key k))) := by
  have hpend : s.pend = [] := by
    refine pend_nil_of_view s h ?_ ?_ <;> rw [hv] <;> intro hh <;> cases hh
  cases k with
  | enter =>
    have hupd : Update s.m (.key .enter) =
        (setView s.m stateLoading "Submitting email to the agents...",
          Cmd.batch Cmd.tick (loadSampleEmailCmd s.m.email)) := by
      simp [Update, handleKeyMsg, scrollViewport, hv, viewUsesViewport, handlePreviewKey,
        beginEmailSubmission]
    rw [hupd]
    have hpend2 : (dispatch s (setView s.m stateLoading "Submitting email to the agents...",
        Cmd.batch Cmd.tick (loadSampleEmailCmd s.m.email))).pend =
        [Pending.submit s.m.email] := by
      simp [dispatch, Cmd.calls, loadSampleEmailCmd, callToPending, hpend]
    refine ⟨?_, ?_, ?_, ?_, ?_, ?_, ?_⟩
    · intro r hr hne
      simp only [dispatch] at hr
      rw [setView_response] at hr
      show (setView s.m stateLoading _).currentAction ≥ 0 ∧ _ < _
      rw [setView_currentAction]
      exact ⟨(h.idx r hr hne).1, (h.idx r hr hne).2⟩
    · intro hvp
      simp only [dispatch] at hvp
      rw [setView_view] at hvp
      cases hvp
    · intro hvp
      simp only [dispatch] at hvp
      rw [setView_view] at hvp
      cases hvp
    · intro hvp
      simp only [dispatch] at hvp
      rw [setView_view] at hvp
      rcases hvp with hvp | hvp | hvp <;> cases hvp
    · intro e he
      rw [hpend2] at he
      simp at he
      subst he
      constructor
      · show (setView s.m stateLoading _).view = stateLoading
        rw [setView_view]
      · show (setView s.m stateLoading _).currentAction = 0
        rw [setView_currentAction]
        exact h.preview hv
    · intro i id hm
      rw [hpend2] at hm
      simp at hm
    · show (dispatch _ _).pend.length ≤ 1
      rw [hpend2]
      simp
  | runes str =>
    refine inv_dispatch_congr s _ ?_ ?_ ?_ ?_ h <;>
      simp [Update, handleKeyMsg, scrollViewport, hv, viewUsesViewport, handlePreviewKey,
        Cmd.calls] <;>
      split <;> simp [Cmd.calls, hv]
  | ctrlC =>
    exact inv_dispatch_congr s _ rfl rfl rfl rfl h
  | ctrlS =>
    refine inv_dispatch_congr s _ ?_ ?_ ?_ ?_ h <;>
      simp [Update, handleKeyMsg, scrollViewport, hv, viewUsesViewport, handlePreviewKey,
        Cmd.calls]
  | esc =>
    refine inv_dispatch_congr s _ ?_ ?_ ?_ ?_ h <;>
      simp [Update, handleKeyMsg, scrollViewport, hv, viewUsesViewport, handlePreviewKey,
        Cmd.calls]
  | up =>
    refine inv_dispatch_congr s _ ?_ ?_ ?_ ?_ h <;>
      simp [Update, handleKeyMsg, scrollViewport, hv, viewUsesViewport, Cmd.calls]
  | down =>
    refine inv_dispatch_congr s _ ?_ ?_ ?_ ?_ h <;>
      simp [Update, handleKeyMsg, scrollViewport, hv, viewUsesViewport, Cmd.calls]
  | pgUp =>
    refine inv_dispatch_congr s _ ?_ ?_ ?_ ?_ h <;>
      simp [Update, handleKeyMsg, scrollViewport, hv, viewUsesViewport, Cmd.calls]
  | pgDown =>
    refine inv_dispatch_congr s _ ?_ ?_ ?_ ?_ h <;>
      simp [Update, handleKeyMsg, scrollViewport, hv, viewUsesViewport, Cmd.calls]
  | home =>
    refine inv_dispatch_congr s _ ?_ ?_ ?_ ?_ h <;>
      simp [Update, handleKeyMsg, scrollViewport, hv, viewUsesViewport, Cmd.calls]
  | endKey =>
    refine inv_dispatch_congr s _ ?_ ?_ ?_ ?_ h <;>
      simp [Update, handleKeyMsg, scrollViewport, hv, viewUsesViewport, Cmd.calls]

theorem inv_key_summary (s : Sys) (h : Inv s) (k : KeyMsg)
    (hv : s.m.view = stateSummary) :
    Inv (dispatch s (Update s.m (.key k))) := by
  have hpend : s.pend = [] := by
    refine pend_nil_of_view s h ?_ ?_ <;> rw [hv] <;> intro hh <;> cases hh
  cases k with
  | enter =>
    obtain ⟨r, hr, hne⟩ := h.summary hv
    have hlenpos : 0 < r.proposedActions.length := List.length_pos.mpr hne
    have hupd : Update s.m (.key .enter) =
        (setView { s.m with currentAction := 0 } stateReview "", Cmd.noCmd) := by
      simp [Update, handleKeyMsg, scrollViewport, hv, viewUsesViewport]
    rw [hupd]
    have hpend2 : (dispatch s (setView { s.m with currentAction := 0 } stateReview "",
        Cmd.noCmd)).pend = [] := by
      simp [dispatch, Cmd.calls, hpend]
    refine ⟨?_, ?_, ?_, ?_, ?_, ?_, ?_⟩
    · intro r' hr' hne'
      simp only [dispatch] at hr'
      rw [setView_response] at hr'
      show 0 ≤ (setView { s.m with currentAction := 0 } stateReview "").currentAction ∧ _
      rw [setView_currentAction]
      show (0 : Int) ≤ 0 ∧ (0 : Int) < _
      have : ({ s.m with currentAction := 0 } : AppModel).response = s.m.response := rfl
      rw [this, hr] at hr'
      cases hr'
      exact ⟨le_refl 0, by omega⟩
    · intro hvp
      simp only [dispatch] at hvp
      rw [setView_view] at hvp
      cases hvp
    · intro hvp
      simp only [dispatch] at hvp
      rw [setView_view] at hvp
      cases hvp
    · intro _
      refine ⟨r, ?_, ?_, ?_⟩
      · show (setView { s.m with currentAction := 0 } stateReview "").response = some r
        rw [setView_response]
        exact hr
      · show 0 ≤ (setView { s.m with currentAction := 0 } stateReview "").currentAction
        rw [setView_currentAction]
      · show (setView { s.m with currentAction := 0 } stateReview "").currentAction < _
        rw [setView_currentAction]
        show (0 : Int) < _
        omega
    · intro e he
      rw [hpend2] at he
      cases he
    · intro i id hm
      rw [hpend2] at hm
      cases hm
    · show (dispatch _ _).pend.length ≤ 1
      rw [hpend2]
      simp
  | ctrlC =>
    exact inv_dispatch_congr s _ rfl rfl rfl rfl h
  | runes str =>
    refine inv_dispatch_congr s _ ?_ ?_ ?_ ?_ h <;>
      simp [Update, handleKeyMsg, scrollViewport, hv, viewUsesViewport, Cmd.calls]
  | ctrlS =>
    refine inv_dispatch_congr s _ ?_ ?_ ?_ ?_ h <;>
      simp [Update, handleKeyMsg, scrollViewport, hv, viewUsesViewport, Cmd.calls]
  | esc =>
    refine inv_dispatch_congr s _ ?_ ?_ ?_ ?_ h <;>
      simp [Update, handleKeyMsg, scrollViewport, hv, viewUsesViewport, Cmd.calls]
  | up =>
    refine inv_dispatch_congr s _ ?_ ?_ ?_ ?_ h <;>
      simp [Update, handleKeyMsg, scrollViewport, hv, viewUsesViewport, Cmd.calls]
  | down =>
    refine inv_dispatch_congr s _ ?_ ?_ ?_ ?_ h <;>
      simp [Update, handleKeyMsg, scrollViewport, hv, viewUsesViewport, Cmd.calls]
  | pgUp =>
    refine inv_dispatch_congr s _ ?_ ?_ ?_ ?_ h <;>
      simp [Update, handleKeyMsg, scrollViewport, hv, viewUsesViewport, Cmd.calls]
  | pgDown =>
    refine inv_dispatch_congr s _ ?_ ?_ ?_ ?_ h <;>
      simp [Update, handleKeyMsg, scrollViewport, hv, viewUsesViewport, Cmd.calls]
  | home =>
    refine inv_dispatch_congr s _ ?_ ?_ ?_ ?_ h <;>
      simp [Update, handleKeyMsg, scrollViewport, hv, viewUsesViewport, Cmd.calls]
  | endKey =>
    refine inv_dispatch_congr s _ ?_ ?_ ?_ ?_ h <;>
      simp [Update, handleKeyMsg, scrollViewport, hv, viewUsesViewport, Cmd.calls]

theorem inv_key_done (s : Sys) (h : Inv s) (k : KeyMsg) (hv : s.m.view = stateDone) :
    Inv (dispatch s (Update s.m (.key k))) := by
  have hpend : s.pend = [] := by
    refine pend_nil_of_view s h ?_ ?_ <;> rw [hv] <;> intro hh <;> cases hh
  cases k with
  | enter =>
    by_cases hm1 : hasMoreEmails s.m
    · have hupd : Update s.m (.key .enter) = prepareNextEmail s.m := by
        simp [Update, handleKeyMsg, scrollViewport, hv, viewUsesViewport, hm1]
      rw [hupd, prepareNextEmail]
      have hlt : ¬ ((s.m.emails.length : Int) ≤ s.m.currentEmail + 1) := by
        simp [hasMoreEmails] at hm1
        omega
      rw [if_neg hlt, prepareEmail]
      by_cases hg : s.m.currentEmail + 1 < 0 ∨
          (s.m.emails.length : Int) ≤ s.m.currentEmail + 1
      · rw [if_pos hg]
        exact inv_dispatch_congr s _ rfl rfl rfl rfl h
      · rw [if_neg hg]
        refine ⟨?_, ?_, ?_, ?_, ?_, ?_, ?_⟩
        · intro r hr _
          simp only [dispatch] at hr
          rw [setView_response] at hr
          cases hr
        · intro _
          show (setView _ statePreviewEmail _).currentAction = 0
          rw [setView_currentAction]
        · intro hvp
          simp only [dispatch] at hvp
          rw [setView_view] at hvp
          cases hvp
        · intro hvp
          simp only [dispatch] at hvp
          rw [setView_view] at hvp
          rcases hvp with hvp | hvp | hvp <;> cases hvp
        · intro e he
          simp only [dispatch, Cmd.calls, List.map_nil, List.append_nil, hpend] at he
          cases he
        · intro i id hm
          simp only [dispatch, Cmd.calls, List.map_nil, List.append_nil, hpend] at hm
          cases hm
        · show (dispatch _ _).pend.length ≤ 1
          simp [dispatch, Cmd.calls, hpend]
    · refine inv_dispatch_congr s _ ?_ ?_ ?_ ?_ h <;>
        simp [Update, handleKeyMsg, scrollViewport, hv, viewUsesViewport, hm1, Cmd.calls]
  | ctrlC =>
    exact inv_dispatch_congr s _ rfl rfl rfl rfl h
  | runes str =>
    refine inv_dispatch_congr s _ ?_ ?_ ?_ ?_ h <;>
      simp [Update, handleKeyMsg, scrollViewport, hv, viewUsesViewport, Cmd.calls] <;>
      split <;> simp [Cmd.calls, hv]
  | ctrlS =>
    refine inv_dispatch_congr s _ ?_ ?_ ?_ ?_ h <;>
      simp [Update, handleKeyMsg, scrollViewport, hv, viewUsesViewport, Cmd.calls]
  | esc =>
    refine inv_dispatch_congr s _ ?_ ?_ ?_ ?_ h <;>
      simp [Update, handleKeyMsg, scrollViewport, hv, viewUsesViewport, Cmd.calls]
  | up =>
    refine inv_dispatch_congr s _ ?_ ?_ ?_ ?_ h <;>
      simp [Update, handleKeyMsg, scrollViewport, hv, viewUsesViewport, Cmd.calls]
  | down =>
    refine inv_dispatch_congr s _ ?_ ?_ ?_ ?_ h <;>
      simp [Update, handleKeyMsg, scrollViewport, hv, viewUsesViewport, Cmd.calls]
  | pgUp =>
    refine inv_dispatch_congr s _ ?_ ?_ ?_ ?_ h <;>
      simp [Update, handleKeyMsg, scrollViewport, hv, viewUsesViewport, Cmd.calls]
  | pgDown =>
    refine inv_dispatch_congr s _ ?_ ?_ ?_ ?_ h <;>
      simp [Update, handleKeyMsg, scrollViewport, hv, viewUsesViewport, Cmd.calls]
  | home =>
    refine inv_dispatch_congr s _ ?_ ?_ ?_ ?_ h <;>
      simp [Update, handleKeyMsg, scrollViewport, hv, viewUsesViewport, Cmd.calls]
  | endKey =>
    refine inv_dispatch_congr s _ ?_ ?_ ?_ ?_ h <;>
      simp [Update, handleKeyMsg, scrollViewport, hv, viewUsesViewport, Cmd.calls]

theorem inv_key_editing (s : Sys) (h : Inv s) (k : KeyMsg)
    (hv : s.m.view = stateEditingPayload) :
    Inv (dispatch s (Update s.m (.key k))) := by
  have hpend : s.pend = [] := by
    refine pend_nil_of_view s h ?_ ?_ <;> rw [hv] <;> intro hh <;> cases hh
  obtain ⟨r, hr, h0, hl⟩ := h.screens (Or.inr (Or.inl hv))
  have hscreens2 : ∀ m' : AppModel, m'.response = s.m.response →
      m'.currentAction = s.m.currentAction →
      ∃ r', m'.response = some r' ∧ 0 ≤ m'.currentAction ∧
        m'.currentAction < (r'.proposedActions.length : Int) := by
    intro m' h1 h2
    rw [h1, h2]
    exact ⟨r, hr, h0, hl⟩
  cases k with
  | ctrlS =>
    have hupd : Update s.m (.key .ctrlS) = handlePayloadKey s.m .ctrlS := by
      simp [Update, handleKeyMsg, scrollViewport, hv, viewUsesViewport]
    have hpk : handlePayloadKey s.m .ctrlS =
        (if trimSpace s.m.editor.value = "" then
          ({ s.m with editorErr := "Payload cannot be empty." }, Cmd.noCmd)
        else
          match unmarshalObj (trimSpace s.m.editor.value) with
          | .error e => ({ s.m with editorErr := "Invalid JSON: " ++ e }, Cmd.noCmd)
          | .ok parsed =>
            (setView { s.m with pending := parsed, editorErr := "" } statePromptGeneral
              "Apply extracted preferences to general profile? (y/N)", Cmd.noCmd)) := rfl
    rw [hupd, hpk]
    by_cases hraw : trimSpace s.m.editor.value = ""
    · rw [if_pos hraw]
      exact inv_dispatch_congr s _ rfl rfl rfl rfl h
    · rw [if_neg hraw]
      cases hun : unmarshalObj (trimSpace s.m.editor.value) with
      | error e => exact inv_dispatch_congr s _ rfl rfl rfl rfl h
      | ok parsed =>
        have hpend2 : (dispatch s (setView { s.m with pending := parsed, editorErr := "" }
            statePromptGeneral "Apply extracted preferences to general profile? (y/N)",
            Cmd.noCmd)).pend = [] := by
          simp [dispatch, Cmd.calls, hpend]
        refine ⟨?_, ?_, ?_, ?_, ?_, ?_, ?_⟩
        · intro r' hr' hne'
          simp only [dispatch] at hr'
          rw [setView_response] at hr'
          show 0 ≤ (setView _ statePromptGeneral _).currentAction ∧ _
          rw [setView_currentAction]
          exact h.idx r' hr' hne'
        · intro hvp
          simp only [dispatch] at hvp
          rw [setView_view] at hvp
          cases hvp
        · intro hvp
          simp only [dispatch] at hvp
          rw [setView_view] at hvp
          cases hvp
        · intro _
          show ∃ r', (setView _ statePromptGeneral _).response = some r' ∧
            0 ≤ (setView _ statePromptGeneral _).currentAction ∧ _
          rw [setView_response, setView_currentAction]
          exact hscreens2 _ rfl rfl
        · intro e he
          rw [hpend2] at he
          cases he
        · intro i id hm
          rw [hpend2] at hm
          cases hm
        · show (dispatch _ _).pend.length ≤ 1
          rw [hpend2]
          simp
  | esc =>
    have hupd : Update s.m (.key .esc) = handlePayloadKey s.m .esc := by
      simp [Update, handleKeyMsg, scrollViewport, hv, viewUsesViewport]
    have hpk : handlePayloadKey s.m .esc =
        (setView s.m stateReview (subtleTextStyle "Modification cancelled."), Cmd.noCmd) := rfl
    rw [hupd, hpk]
    have hpend2 : (dispatch s (setView s.m stateReview
        (subtleTextStyle "Modification cancelled."), Cmd.noCmd)).pend = [] := by
      simp [dispatch, Cmd.calls, hpend]
    refine ⟨?_, ?_, ?_, ?_, ?_, ?_, ?_⟩
    · intro r' hr' hne'
      simp only [dispatch] at hr'
      rw [setView_response] at hr'
      show 0 ≤ (setView _ stateReview _).currentAction ∧ _
      rw [setView_currentAction]
      exact h.idx r' hr' hne'
    · intro hvp
      simp only [dispatch] at hvp
      rw [setView_view] at hvp
      cases hvp
    · intro hvp
      simp only [dispatch] at hvp
      rw [setView_view] at hvp
      cases hvp
    · intro _
      show ∃ r', (setView _ stateReview _).response = some r' ∧
        0 ≤ (setView _ stateReview _).currentAction ∧ _
      rw [setView_response, setView_currentAction]
      exact hscreens2 _ rfl rfl
    · intro e he
      rw [hpend2] at he
      cases he
    · intro i id hm
      rw [hpend2] at hm
      cases hm
    · show (dispatch _ _).pend.length ≤ 1
      rw [hpend2]
      simp
  | ctrlC =>
    exact inv_dispatch_congr s _ rfl rfl rfl rfl h
  | enter =>
    refine inv_dispatch_congr s _ ?_ ?_ ?_ ?_ h <;>
      simp [Update, handleKeyMsg, scrollViewport, hv, viewUsesViewport, handlePayloadKey,
        textareaUpdate, Cmd.calls]
  | runes str =>
    refine inv_dispatch_congr s _ ?_ ?_ ?_ ?_ h <;>
      simp [Update, handleKeyMsg, scrollViewport, hv, viewUsesViewport, handlePayloadKey,
        textareaUpdate, Cmd.calls]
  | up =>
    refine inv_dispatch_congr s _ ?_ ?_ ?_ ?_ h <;>
      simp [Update, handleKeyMsg, scrollViewport, hv, viewUsesViewport, handlePayloadKey,
        textareaUpdate, Cmd.calls]
  | down =>
    refine inv_dispatch_congr s _ ?_ ?_ ?_ ?_ h <;>
      simp [Update, handleKeyMsg, scrollViewport, hv, viewUsesViewport, handlePayloadKey,
        textareaUpdate, Cmd.calls]
  | pgUp =>
    refine inv_dispatch_congr s _ ?_ ?_ ?_ ?_ h <;>
      simp [Update, handleKeyMsg, scrollViewport, hv, viewUsesViewport, handlePayloadKey,
        textareaUpdate, Cmd.calls]
  | pgDown =>
    refine inv_dispatch_congr s _ ?_ ?_ ?_ ?_ h <;>
      simp [Update, handleKeyMsg, scrollViewport, hv, viewUsesViewport, handlePayloadKey,
        textareaUpdate, Cmd.calls]
  | home =>
    refine inv_dispatch_congr s _ ?_ ?_ ?_ ?_ h <;>
      simp [Update, handleKeyMsg, scrollViewport, hv, viewUsesViewport, handlePayloadKey,
        textareaUpdate, Cmd.calls]
  | endKey =>
    refine inv_dispatch_congr s _ ?_ ?_ ?_ ?_ h <;>
      simp [Update, handleKeyMsg, scrollViewport, hv, viewUsesViewport, handlePayloadKey,
        textareaUpdate, Cmd.calls]

/-- Dispatching an action call from an interactive screen with a valid
current action preserves the invariant: the engine moves to the submitting
screen with exactly that call outstanding. -/
theorem inv_begin_action (s : Sys) (h : Inv s) (hpend : s.pend = [])
    (r : NewEmailResponse) (aRec : Action) (hr : s.m.response = some r)
    (h0 : 0 ≤ s.m.currentAction)
    (hl : s.m.currentAction < (r.proposedActions.length : Int))
    (hGet : r.proposedActions[s.m.currentAction.toNat]? = some aRec)
    (message : String) (c : Cmd)
    (hcp : c.calls.map callToPending = [Pending.action s.m.currentAction aRec.actionID]) :
    Inv (dispatch s (setView s.m stateSubmittingAction message, Cmd.batch Cmd.tick c)) := by
  have hpend2 : (dispatch s (setView s.m stateSubmittingAction message,
      Cmd.batch Cmd.tick c)).pend = [Pending.action s.m.currentAction aRec.actionID] := by
    show s.pend ++ ((Cmd.batch Cmd.tick c).calls.map callToPending) = _
    rw [hpend]
    show [] ++ ((Cmd.tick.calls ++ c.calls).map callToPending) = _
    simp [Cmd.calls, hcp]
  refine ⟨?_, ?_, ?_, ?_, ?_, ?_, ?_⟩
  · intro r' hr' hne'
    simp only [dispatch] at hr'
    rw [setView_response] at hr'
    show 0 ≤ (setView _ stateSubmittingAction _).currentAction ∧ _
    rw [setView_currentAction]
    exact h.idx r' hr' hne'
  · intro hvp
    simp only [dispatch] at hvp
    rw [setView_view] at hvp
    cases hvp
  · intro hvp
    simp only [dispatch] at hvp
    rw [setView_view] at hvp
    cases hvp
  · intro hvp
    simp only [dispatch] at hvp
    rw [setView_view] at hvp
    rcases hvp with hvp | hvp | hvp <;> cases hvp
  · intro e he
    rw [hpend2] at he
    simp at he
  · intro i id hm
    rw [hpend2] at hm
    simp at hm
    obtain ⟨hi, hid⟩ := hm
    subst hi
    subst hid
    constructor
    · show (setView _ stateSubmittingAction _).view = stateSubmittingAction
      rw [setView_view]
    · refine ⟨r, aRec, ?_, h0, hl, hGet, rfl⟩
      show (setView _ stateSubmittingAction _).response = some r
      rw [setView_response]
      exact hr
  · show (dispatch _ _).pend.length ≤ 1
    rw [hpend2]
    simp

theorem inv_key_review (s : Sys) (h : Inv s) (k : KeyMsg) (hv : s.m.view = stateReview) :
    Inv (dispatch s (Update s.m (.key k))) := by
  have hpend : s.pend = [] := by
    refine pend_nil_of_view s h ?_ ?_ <;> rw [hv] <;> intro hh <;> cases hh
  obtain ⟨r, hr, h0, hl⟩ := h.screens (Or.inl hv)
  have hb : s.m.currentAction.toNat < r.proposedActions.length := by omega
  have hGet : r.proposedActions[s.m.currentAction.toNat]? =
      some (r.proposedActions[s.m.currentAction.toNat]) := List.getElem?_eq_getElem hb
  have hcast : s.m.currentAction = ((s.m.currentAction.toNat : Nat) : Int) := by omega
  have hsome : currentActionRef s.m =
      some (r.proposedActions[s.m.currentAction.toNat]) := by
    have h1 := actionAt_natCast s.m r s.m.currentAction.toNat hr hb
    rw [← hcast] at h1
    exact h1.trans hGet
  cases k with
  | runes str =>
    have hupd : Update s.m (.key (.runes str)) = handleReviewKey s.m (.runes str) := by
      simp [Update, handleKeyMsg, scrollViewport, hv, viewUsesViewport]
    rw [hupd]
    simp only [handleReviewKey, hsome]
    by_cases ha : goToLower str = "a"
    · rw [if_pos ha]
      exact inv_begin_action s h hpend r _ hr h0 hl hGet _ _ rfl
    · rw [if_neg ha]
      by_cases hrj : goToLower str = "r"
      · rw [if_pos hrj]
        exact inv_begin_action s h hpend r _ hr h0 hl hGet _ _ rfl
      · rw [if_neg hrj]
        by_cases hm : goToLower str = "m"
        · rw [if_pos hm]
          simp only [enterPayloadEditor, hsome]
          refine ⟨?_, ?_, ?_, ?_, ?_, ?_, ?_⟩
          · intro r' hr' hne'
            exact h.idx r' hr' hne'
          · intro hvp
            exact (nomatch hvp)
          · intro hvp
            exact (nomatch hvp)
          · intro _
            exact ⟨r, hr, h0, hl⟩
          · intro e he
            simp only [dispatch, Cmd.calls, List.map_nil, List.append_nil, hpend] at he
            cases he
          · intro i id hm2
            simp only [dispatch, Cmd.calls, List.map_nil, List.append_nil, hpend] at hm2
            cases hm2
          · show (dispatch _ _).pend.length ≤ 1
            simp [dispatch, Cmd.calls, hpend]
        · rw [if_neg hm]
          by_cases hq : goToLower str = "q"
          · rw [if_pos hq]
            exact inv_dispatch_congr s _ rfl rfl rfl rfl h
          · rw [if_neg hq]
            exact inv_dispatch_congr s _ rfl rfl rfl rfl h
  | ctrlC =>
    exact inv_dispatch_congr s _ rfl rfl rfl rfl h
  | enter =>
    refine inv_dispatch_congr s _ ?_ ?_ ?_ ?_ h <;>
      simp [Update, handleKeyMsg, scrollViewport, hv, viewUsesViewport, handleReviewKey,
        hsome, Cmd.calls]
  | ctrlS =>
    refine inv_dispatch_congr s _ ?_ ?_ ?_ ?_ h <;>
      simp [Update, handleKeyMsg, scrollViewport, hv, viewUsesViewport, handleReviewKey,
        hsome, Cmd.calls]
  | esc =>
    refine inv_dispatch_congr s _ ?_ ?_ ?_ ?_ h <;>
      simp [Update, handleKeyMsg, scrollViewport, hv, viewUsesViewport, handleReviewKey,
        hsome, Cmd.calls]
  | up =>
    refine inv_dispatch_congr s _ ?_ ?_ ?_ ?_ h <;>
      simp [Update, handleKeyMsg, scrollViewport, hv, viewUsesViewport, Cmd.calls]
  | down =>
    refine inv_dispatch_congr s _ ?_ ?_ ?_ ?_ h <;>
      simp [Update, handleKeyMsg, scrollViewport, hv, viewUsesViewport, Cmd.calls]
  | pgUp =>
    refine inv_dispatch_congr s _ ?_ ?_ ?_ ?_ h <;>
      simp [Update, handleKeyMsg, scrollViewport, hv, viewUsesViewport, Cmd.calls]
  | pgDown =>
    refine inv_dispatch_congr s _ ?_ ?_ ?_ ?_ h <;>
      simp [Update, handleKeyMsg, scrollViewport, hv, viewUsesViewport, Cmd.calls]
  | home =>
    refine inv_dispatch_congr s _ ?_ ?_ ?_ ?_ h <;>
      simp [Update, handleKeyMsg, scrollViewport, hv, viewUsesViewport, Cmd.calls]
  | endKey =>
    refine inv_dispatch_congr s _ ?_ ?_ ?_ ?_ h <;>
      simp [Update, handleKeyMsg, scrollViewport, hv, viewUsesViewport, Cmd.calls]

theorem inv_key_prompt (s : Sys) (h : Inv s) (k : KeyMsg)
    (hv : s.m.view = statePromptGeneral) :
    Inv (dispatch s (Update s.m (.key k))) := by
  have hpend : s.pend = [] := by
    refine pend_nil_of_view s h ?_ ?_ <;> rw [hv] <;> intro hh <;> cases hh
  obtain ⟨r, hr, h0, hl⟩ := h.screens (Or.inr (Or.inr hv))
  have hb : s.m.currentAction.toNat < r.proposedActions.length := by omega
  have hGet : r.proposedActions[s.m.currentAction.toNat]? =
      some (r.proposedActions[s.m.currentAction.toNat]) := List.getElem?_eq_getElem hb
  have hcast : s.m.currentAction = ((s.m.currentAction.toNat : Nat) : Int) := by omega
  have hsome : currentActionRef s.m =
      some (r.proposedActions[s.m.currentAction.toNat]) := by
    have h1 := actionAt_natCast s.m r s.m.currentAction.toNat hr hb
    rw [← hcast] at h1
    exact h1.trans hGet
  have hid : currentActionID s.m =
      (r.proposedActions[s.m.currentAction.toNat]).actionID := by
    rw [currentActionID, hsome]
  have hsubT : Inv (dispatch s (submitModifiedAction s.m true)) :=
    inv_begin_action s h hpend r _ hr h0 hl hGet _ _ (by rw [hid]; rfl)
  have hsubF : Inv (dispatch s (submitModifiedAction s.m false)) :=
    inv_begin_action s h hpend r _ hr h0 hl hGet _ _ (by rw [hid]; rfl)
  cases k with
  | runes str =>
    have hupd : Update s.m (.key (.runes str)) = handlePromptKey s.m (.runes str) := by
      simp [Update, handleKeyMsg, scrollViewport, hv, viewUsesViewport]
    rw [hupd]
    simp only [handlePromptKey]
    by_cases hy : goToLower str = "y"
    · rw [if_pos hy]
      exact hsubT
    · rw [if_neg hy]
      by_cases hn : goToLower str = "n"
      · rw [if_pos hn]
        exact hsubF
      · rw [if_neg hn]
        exact inv_dispatch_congr s _ rfl rfl rfl rfl h
  | enter =>
    have hupd : Update s.m (.key .enter) = handlePromptKey s.m .enter := by
      simp [Update, handleKeyMsg, scrollViewport, hv, viewUsesViewport]
    rw [hupd]
    exact hsubF
  | ctrlC =>
    exact inv_dispatch_congr s _ rfl rfl rfl rfl h
  | ctrlS =>
    refine inv_dispatch_congr s _ ?_ ?_ ?_ ?_ h <;>
      simp [Update, handleKeyMsg, scrollViewport, hv, viewUsesViewport, handlePromptKey,
        Cmd.calls]
  | esc =>
    refine inv_dispatch_congr s _ ?_ ?_ ?_ ?_ h <;>
      simp [Update, handleKeyMsg, scrollViewport, hv, viewUsesViewport, handlePromptKey,
        Cmd.calls]
  | up =>
    refine inv_dispatch_congr s _ ?_ ?_ ?_ ?_ h <;>
      simp [Update, handleKeyMsg, scrollViewport, hv, viewUsesViewport, Cmd.calls]
  | down =>
    refine inv_dispatch_congr s _ ?_ ?_ ?_ ?_ h <;>
      simp [Update, handleKeyMsg, scrollViewport, hv, viewUsesViewport, Cmd.calls]
  | pgUp =>
    refine inv_dispatch_congr s _ ?_ ?_ ?_ ?_ h <;>
      simp [Update, handleKeyMsg, scrollViewport, hv, viewUsesViewport, Cmd.calls]
  | pgDown =>
    refine inv_dispatch_congr s _ ?_ ?_ ?_ ?_ h <;>
      simp [Update, handleKeyMsg, scrollViewport, hv, viewUsesViewport, Cmd.calls]
  | home =>
    refine inv_dispatch_congr s _ ?_ ?_ ?_ ?_ h <;>
      simp [Update, handleKeyMsg, scrollViewport, hv, viewUsesViewport, Cmd.calls]
  | endKey =>
    refine inv_dispatch_congr s _ ?_ ?_ ?_ ?_ h <;>
      simp [Update, handleKeyMsg, scrollViewport, hv, viewUsesViewport, Cmd.calls]

theorem deliver_eq_dispatch (s : Sys) (p : Pending) (msg : Msg) :
    deliver s p msg = dispatch { m := s.m, pend := s.pend.erase p } (Update s.m msg) := rfl

/-- A completion that lands on a terminal screen (`Done`/`Error`) with a
valid index and no new call preserves the invariant. -/
theorem inv_terminal_screen (s : Sys) (mc : AppModel × Cmd)
    (hvw : mc.1.view = stateDone ∨ mc.1.view = stateError)
    (hidx : IndexValid mc.1) (hcalls : mc.2.calls = []) (hpend : s.pend = []) :
    Inv (dispatch s mc) := by
  have hpend2 : (dispatch s mc).pend = [] := by
    show s.pend ++ (mc.2.calls.map callToPending) = []
    rw [hpend, hcalls]
    simp
  refine ⟨hidx, ?_, ?_, ?_, ?_, ?_, ?_⟩
  · intro hvp
    rcases hvw with hw | hw <;> rw [show (dispatch s mc).m.view = mc.1.view from rfl, hw] at hvp <;> cases hvp
  · intro hvp
    rcases hvw with hw | hw <;> rw [show (dispatch s mc).m.view = mc.1.view from rfl, hw] at hvp <;> cases hvp
  · intro hvp
    rcases hvw with hw | hw <;>
      rw [show (dispatch s mc).m.view = mc.1.view from rfl, hw] at hvp <;>
      rcases hvp with hvp | hvp | hvp <;> cases hvp
  · intro e he
    rw [hpend2] at he
    cases he
  · intro i id hm
    rw [hpend2] at hm
    cases hm
  · rw [hpend2]
    simp

theorem inv_submitErr (s : Sys) (h : Inv s) (e : Email) (msg : String)
    (hmem : Pending.submit e ∈ s.pend) :
    Inv (deliver s (.submit e) (.newEmail e none (some msg))) := by
  have hpend1 : s.pend = [Pending.submit e] := pend_singleton s h _ hmem
  have herase : s.pend.erase (Pending.submit e) = [] := by
    rw [hpend1]
    simp
  rw [deliver_eq_dispatch]
  refine inv_terminal_screen _ _ (Or.inr ?_) ?_ rfl herase
  · show (setView _ stateError _).view = stateError
    rw [setView_view]
  · intro r' hr' hne'
    have hr2 : s.m.response = some r' := by
      have : (setView { s.m with err := some msg } stateError "").response =
          s.m.response := by rw [setView_response]
      rw [← this]
      exact hr'
    have hc2 : (Update s.m (.newEmail e none (some msg))).1.currentAction =
        s.m.currentAction := by
      show (setView { s.m with err := some msg } stateError "").currentAction = _
      rw [setView_currentAction]
    rw [show (Update s.m (.newEmail e none (some msg))).1.currentAction =
        s.m.currentAction from hc2]
    exact h.idx r' hr2 hne'

theorem inv_actionErr (s : Sys) (h : Inv s) (i : Int) (id : String) (msg : String)
    (hmem : Pending.action i id ∈ s.pend) :
    Inv (deliver s (.action i id) (.actionUpdated i zeroAction (some msg))) := by
  have hpend1 : s.pend = [Pending.action i id] := pend_singleton s h _ hmem
  have herase : s.pend.erase (Pending.action i id) = [] := by
    rw [hpend1]
    simp
  rw [deliver_eq_dispatch]
  refine inv_terminal_screen _ _ (Or.inr ?_) ?_ rfl herase
  · show (setView _ stateError _).view = stateError
    rw [setView_view]
  · intro r' hr' hne'
    have hr2 : s.m.response = some r' := by
      have : (setView { s.m with err := some msg } stateError "").response =
          s.m.response := by rw [setView_response]
      rw [← this]
      exact hr'
    have hc2 : (Update s.m (.actionUpdated i zeroAction (some msg))).1.currentAction =
        s.m.currentAction := by
      show (setView { s.m with err := some msg } stateError "").currentAction = _
      rw [setView_currentAction]
    rw [hc2]
    exact h.idx r' hr2 hne'

theorem inv_submitOk (s : Sys) (h : Inv s) (e : Email) (r : NewEmailResponse)
    (hmem : Pending.submit e ∈ s.pend) :
    Inv (deliver s (.submit e) (.newEmail e (some r) none)) := by
  obtain ⟨hview, hcur⟩ := h.subPend e hmem
  have hpend1 : s.pend = [Pending.submit e] := pend_singleton s h _ hmem
  have herase : s.pend.erase (Pending.submit e) = [] := by
    rw [hpend1]
    simp
  rw [deliver_eq_dispatch]
  cases hacts : r.proposedActions with
  | nil =>
    have hA : hasActions { s.m with email := e, response := some r } = false := by
      simp [hasActions, hacts]
    have hupd : Update s.m (.newEmail e (some r) none) =
        (setView { s.m with email := e, response := some r } stateDone
          "No actions to review.", Cmd.noCmd) := by
      show (if hasActions { s.m with email := e, response := some r } then _ else _) = _
      rw [hA]
      simp
    rw [hupd]
    refine inv_terminal_screen _ _ (Or.inl ?_) ?_ rfl herase
    · rw [setView_view]
    · intro r' hr' hne'
      rw [setView_response] at hr'
      have : r = r' := by
        have h2 : ({ s.m with email := e, response := some r } : AppModel).response =
            some r := rfl
        rw [h2] at hr'
        cases hr'
        rfl
      rw [← this, hacts] at hne'
      exact absurd rfl hne'
  | cons a as =>
    have hA : hasActions { s.m with email := e, response := some r } = true := by
      simp [hasActions, hacts]
    have hupd : Update s.m (.newEmail e (some r) none) =
        (setView { s.m with email := e, response := some r } stateSummary "", Cmd.noCmd) := by
      show (if hasActions { s.m with email := e, response := some r } then _ else _) = _
      rw [hA]
      simp
    rw [hupd]
    have hlenpos : 0 < r.proposedActions.length := by
      rw [hacts]
      simp
    have hpend2 : (dispatch { m := s.m, pend := s.pend.erase (Pending.submit e) }
        (setView { s.m with email := e, response := some r } stateSummary "",
          Cmd.noCmd)).pend = [] := by
      show s.pend.erase (Pending.submit e) ++ _ = []
      rw [herase]
      simp [Cmd.calls]
    refine ⟨?_, ?_, ?_, ?_, ?_, ?_, ?_⟩
    · intro r' hr' hne'
      have hr2 : (setView { s.m with email := e, response := some r }
          stateSummary "").response = some r' := hr'
      rw [setView_response] at hr2
      have hr3 : some r = some r' := hr2
      cases hr3
      show 0 ≤ (setView { s.m with email := e, response := some r }
        stateSummary "").currentAction ∧ _
      rw [setView_currentAction]
      show 0 ≤ s.m.currentAction ∧ s.m.currentAction < _
      rw [hcur]
      exact ⟨le_refl 0, by omega⟩
    · intro hvp
      have hvp2 : (setView { s.m with email := e, response := some r }
          stateSummary "").view = statePreviewEmail := hvp
      rw [setView_view] at hvp2
      cases hvp2
    · intro _
      refine ⟨r, ?_, ?_⟩
      · show (setView { s.m with email := e, response := some r }
          stateSummary "").response = some r
        rw [setView_response]
      · rw [hacts]
        simp
    · intro hvp
      have hvp2 : (setView { s.m with email := e, response := some r }
          stateSummary "").view = stateReview ∨
          (setView { s.m with email := e, response := some r }
          stateSummary "").view = stateEditingPayload ∨
          (setView { s.m with email := e, response := some r }
          stateSummary "").view = statePromptGeneral := hvp
      rw [setView_view] at hvp2
      rcases hvp2 with hvp2 | hvp2 | hvp2 <;> cases hvp2
    · intro e2 he
      rw [hpend2] at he
      cases he
    · intro i id hm
      rw [hpend2] at hm
      cases hm
    · rw [hpend2]
      simp

theorem inv_actionOk (s : Sys) (h : Inv s) (i : Int) (id : String) (a : Action)
    (hmem : Pending.action i id ∈ s.pend) :
    Inv (deliver s (.action i id) (.actionUpdated i a none)) := by
  obtain ⟨hview, r, aRec, hr, h0, hl, hGet, hid⟩ := h.actPend i id hmem
  have hpend1 : s.pend = [Pending.action i id] := pend_singleton s h _ hmem
  have herase : s.pend.erase (Pending.action i id) = [] := by
    rw [hpend1]
    simp
  have hcast : i = ((i.toNat : Nat) : Int) := by omega
  have hb : i.toNat < r.proposedActions.length := by omega
  rw [deliver_eq_dispatch, hcast]
  have hcmd : (Update s.m (.actionUpdated ((i.toNat : Nat) : Int) a none)).2 = Cmd.tick := by
    rw [update_actionOk_eq s.m r i.toNat a hr hb]
    split <;> rfl
  have herase2 : s.pend.erase (Pending.action ((i.toNat : Nat) : Int) id) = [] := by
    rw [← hcast]
    exact herase
  have hpend2 : (dispatch { m := s.m, pend := s.pend.erase (Pending.action ((i.toNat : Nat) : Int) id) } (Update s.m (.actionUpdated ((i.toNat : Nat) : Int) a none))).pend = [] := by
    show s.pend.erase (Pending.action ((i.toNat : Nat) : Int) id) ++ _ = []
    rw [herase2, hcmd]
    simp [Cmd.calls]
  refine Inv_congr ⟨(Update s.m (.actionUpdated ((i.toNat : Nat) : Int) a none)).1, []⟩ _
    rfl rfl rfl hpend2 ?_
  by_cases hnext : i.toNat + 1 < r.proposedActions.length
  · obtain ⟨hv', hc', hr'⟩ := update_actionOk_mid s.m r i.toNat a hr hnext
    refine ⟨?_, ?_, ?_, ?_, ?_, ?_, ?_⟩
    · intro r' hr2 hne'
      show 0 ≤ (Update s.m (.actionUpdated ((i.toNat : Nat) : Int) a none)).1.currentAction ∧
        (Update s.m (.actionUpdated ((i.toNat : Nat) : Int) a none)).1.currentAction <
          (r'.proposedActions.length : Int)
      have hr3 : (Update s.m (.actionUpdated ((i.toNat : Nat) : Int) a none)).1.response =
          some r' := hr2
      rw [hr'] at hr3
      cases hr3
      rw [hc']
      constructor
      · omega
      · show _ < ((withActions r (r.proposedActions.set i.toNat a)).proposedActions.length : Int)
        rw [withActions_proposedActions, List.length_set]
        omega
    · intro hvp
      rw [hv'] at hvp
      cases hvp
    · intro hvp
      rw [hv'] at hvp
      cases hvp
    · intro _
      refine ⟨withActions r (r.proposedActions.set i.toNat a), hr', ?_, ?_⟩
      · rw [hc']
        omega
      · rw [hc']
        show _ < ((withActions r (r.proposedActions.set i.toNat a)).proposedActions.length : Int)
        rw [withActions_proposedActions, List.length_set]
        omega
    · intro e he
      cases he
    · intro i2 id2 hm
      cases hm
    · simp
  · have hlast : i.toNat + 1 = r.proposedActions.length := by omega
    obtain ⟨hv', hc', hr'⟩ := update_actionOk_last s.m r i.toNat a hr hb hlast
    have hrne : r.proposedActions ≠ [] := by
      intro hz
      rw [hz] at hb
      simp at hb
    obtain ⟨hc0, hcl⟩ := h.idx r hr hrne
    refine ⟨?_, ?_, ?_, ?_, ?_, ?_, ?_⟩
    · intro r' hr2 hne'
      show 0 ≤ (Update s.m (.actionUpdated ((i.toNat : Nat) : Int) a none)).1.currentAction ∧
        (Update s.m (.actionUpdated ((i.toNat : Nat) : Int) a none)).1.currentAction <
          (r'.proposedActions.length : Int)
      have hr3 : (Update s.m (.actionUpdated ((i.toNat : Nat) : Int) a none)).1.response =
          some r' := hr2
      rw [hr'] at hr3
      cases hr3
      rw [hc']
      constructor
      · exact hc0
      · show _ < ((withActions r (r.proposedActions.set i.toNat a)).proposedActions.length : Int)
        rw [withActions_proposedActions, List.length_set]
        omega
    · intro hvp
      rw [hv'] at hvp
      cases hvp
    · intro hvp
      rw [hv'] at hvp
      cases hvp
    · intro hvp
      rw [hv'] at hvp
      rcases hvp with hvp | hvp | hvp <;> cases hvp
    · intro e he
      cases he
    · intro i2 id2 hm
      cases hm
    · simp

/-- The invariant is preserved by every step of the closed system. -/
theorem inv_step {s s' : Sys} (h : Inv s) (hs : Step s s') : Inv s' := by
  cases hs with
  | key k =>
    cases hvw : s.m.view with
    | stateLoading => exact inv_key_loading s h k hvw
    | statePreviewEmail => exact inv_key_preview s h k hvw
    | stateSummary => exact inv_key_summary s h k hvw
    | stateReview => exact inv_key_review s h k hvw
    | stateEditingPayload => exact inv_key_editing s h k hvw
    | statePromptGeneral => exact inv_key_prompt s h k hvw
    | stateSubmittingAction => exact inv_key_submitting s h k hvw
    | stateDone => exact inv_key_done s h k hvw
    | stateError => exact inv_key_error s h k hvw
  | resize w hh => exact inv_resize s h w hh
  | tick => exact inv_tick s h
  | submitOk e r hmem => exact inv_submitOk s h e r hmem
  | submitErr e msg hmem => exact inv_submitErr s h e msg hmem
  | actionOk i id a hmem => exact inv_actionOk s h i id a hmem
  | actionErr i id msg hmem => exact inv_actionErr s h i id msg hmem

/-- The invariant holds at startup. -/
theorem inv_init : Inv initSys := by
  refine ⟨?_, ?_, ?_, ?_, ?_, ?_, ?_⟩
  · intro r hr _
    have : (none : Option NewEmailResponse) = some r := hr
    cases this
  · intro _
    rfl
  · intro hv
    have : statePreviewEmail = stateSummary := hv
    cases this
  · intro hv
    have hv2 : statePreviewEmail = stateReview ∨ statePreviewEmail = stateEditingPayload ∨
        statePreviewEmail = statePromptGeneral := hv
    rcases hv2 with h2 | h2 | h2 <;> cases h2
  · intro e he
    have : Pending.submit e ∈ ([] : List Pending) := he
    cases this
  · intro i id hm
    have : Pending.action i id ∈ ([] : List Pending) := hm
    cases this
  · show initSys.pend.length ≤ 1
    have : initSys.pend = [] := rfl
    rw [this]
    simp

/-- Every reachable state satisfies the invariant. -/
theorem inv_of_reach (s : Sys) (h : Reach s) : Inv s := by
  induction h with
  | refl => exact inv_init
  | tail _ hstep ih => exact inv_step ih hstep

/-- C3: in every reachable state, processing a successful submit-email
completion leaves the action index at 0 (the completion itself never touches
the index, and the index is already 0 whenever a submit call is in flight,
reset by `prepareEmail`); and whenever a submission result with a non-empty
action sequence is installed, the action index is a valid index into it. -/
theorem submission_install_resets_index (s : Sys) (hreach : Reach s) :
    (∀ (e : Email) (r : NewEmailResponse), Pending.submit e ∈ s.pend →
      (Update s.m (.newEmail e (some r) none)).1.currentAction = 0) ∧
    (∀ r : NewEmailResponse, s.m.response = some r → r.proposedActions ≠ [] →
      0 ≤ s.m.currentAction ∧ s.m.currentAction < (r.proposedActions.length : Int)) := by
  have h := inv_of_reach s hreach
  refine ⟨?_, h.idx⟩
  intro e r hmem
  have hcur0 := (h.subPend e hmem).2
  have hfix : (Update s.m (.newEmail e (some r) none)).1.currentAction =
      s.m.currentAction := by
    show (if hasActions { s.m with email := e, response := some r } then
        (setView { s.m with email := e, response := some r } stateSummary "", Cmd.noCmd)
      else (setView { s.m with email := e, response := some r } stateDone
        "No actions to review.", Cmd.noCmd)).1.currentAction = s.m.currentAction
    split <;> rw [setView_currentAction]
  rw [hfix, hcur0]

/-- The system right after the operator submits the first sample email:
one submit call is outstanding. -/
def sysAfterSubmit : Sys := dispatch initSys (Update initSys.m (.key .enter))

/-- Witness for `submission_install_resets_index`: at the reachable state
with the submit call in flight, installing a concrete two-action result
leaves the action index at 0. -/
theorem submission_install_resets_index_witness :
    (Update sysAfterSubmit.m
      (.newEmail (buildSampleEmails.getD 0 {}) (some wReviewResp) none)).1.currentAction = 0 := by
  have hreach : Reach sysAfterSubmit :=
    Relation.ReflTransGen.single (Step.key initSys .enter)
  have hmem : Pending.submit (buildSampleEmails.getD 0 {}) ∈ sysAfterSubmit.pend := by
    have : sysAfterSubmit.pend = [Pending.submit (buildSampleEmails.getD 0 {})] := rfl
    rw [this]
    exact List.mem_cons_self _ _
  exact (submission_install_resets_index sysAfterSubmit hreach).1
    (buildSampleEmails.getD 0 {}) wReviewResp hmem

/-- C10: in every reachable state, on the `Review`, `EditingPayload` and
`PromptGeneral` screens a submission result is present and the action index
is a valid index into its action sequence — so the review position counter
`index+1` lies between 1 and N — and every outstanding approve/reject/modify
call carries the action id of an existing action of the current result. -/
theorem interactive_screens_have_valid_action (s : Sys) (hreach : Reach s) :
    ((s.m.view = stateReview ∨ s.m.view = stateEditingPayload ∨
        s.m.view = statePromptGeneral) →
      ∃ r : NewEmailResponse, s.m.response = some r ∧
        0 ≤ s.m.currentAction ∧
        s.m.currentAction < (r.proposedActions.length : Int) ∧
        1 ≤ s.m.currentAction + 1 ∧
        s.m.currentAction + 1 ≤ (r.proposedActions.length : Int)) ∧
    (∀ (i : Int) (id : String), Pending.action i id ∈ s.pend →
      ∃ (r : NewEmailResponse) (a : Action), s.m.response = some r ∧
        r.proposedActions[i.toNat]? = some a ∧ a.actionID = id ∧
        id ∈ r.proposedActions.map Action.actionID) := by
  have h := inv_of_reach s hreach
  constructor
  · intro hv
    obtain ⟨r, hr, h0, hl⟩ := h.screens hv
    exact ⟨r, hr, h0, hl, by omega, by omega⟩
  · intro i id hmem
    obtain ⟨hview, r, a, hr, h0, hl, hget, hid⟩ := h.actPend i id hmem
    refine ⟨r, a, hr, hget, hid, ?_⟩
    rw [← hid]
    exact List.mem_map_of_mem _ (List.getElem?_mem hget)

/-- The system after the two-action result is installed (summary screen). -/
def sysAtSummary : Sys :=
  deliver sysAfterSubmit (.submit (buildSampleEmails.getD 0 {}))
    (.newEmail (buildSampleEmails.getD 0 {}) (some wReviewResp) none)

/-- The system after the operator enters the review screen. -/
def sysAtReview : Sys := dispatch sysAtSummary (Update sysAtSummary.m (.key .enter))

/-- Witness for `interactive_screens_have_valid_action`: the concretely
reached review screen has the result installed with the index in range. -/
theorem interactive_screens_have_valid_action_witness :
    ∃ r : NewEmailResponse, sysAtReview.m.response = some r ∧
      0 ≤ sysAtReview.m.currentAction ∧
      sysAtReview.m.currentAction < (r.proposedActions.length : Int) ∧
      1 ≤ sysAtReview.m.currentAction + 1 ∧
      sysAtReview.m.currentAction + 1 ≤ (r.proposedActions.length : Int) := by
  have hmem : Pending.submit (buildSampleEmails.getD 0 {}) ∈ sysAfterSubmit.pend := by
    have : sysAfterSubmit.pend = [Pending.submit (buildSampleEmails.getD 0 {})] := rfl
    rw [this]
    exact List.mem_cons_self _ _
  have hreach : Reach sysAtReview := by
    refine Relation.ReflTransGen.tail (Relation.ReflTransGen.tail
      (Relation.ReflTransGen.single (Step.key initSys .enter))
      (Step.submitOk sysAfterSubmit (buildSampleEmails.getD 0 {}) wReviewResp hmem))
      (Step.key sysAtSummary .enter)
  exact (interactive_screens_have_valid_action sysAtReview hreach).1 (Or.inl rfl)

/-- C8: the classification block lists the probability-map categories sorted
lexicographically, one line per category as `- name: pp.p%` with a
` (selected)` suffix exactly when the decision map marks it true; the
concrete classification with probability 0.82 for `urgent` and decision true
renders as `- urgent: 82.0% (selected)`; an empty probability map renders
the single no-data line. -/
theorem classification_render (c : ClassificationPayload) :
    (c.probabilities = [] → renderClassification c = "No classification data.") ∧
    (c.probabilities ≠ [] →
      ∃ keys : List String,
        keys.Perm (mapsKeys c.probabilities) ∧
        List.Pairwise (fun a b : String => a ≤ b) keys ∧
        renderClassification c = String.intercalate "\n" (keys.map (fun key =>
          "- " ++ key ++ ": " ++ formatPercent (probLookup c.probabilities key) ++
          (if decLookup c.decisions key then " (selected)" else "")))) ∧
    renderClassification
        { probabilities := [("urgent", mkRat 82 100)], decisions := [("urgent", true)] } =
      "- urgent: 82.0% (selected)" := by
  refine ⟨?_, ?_, ?_⟩
  · intro hemp
    simp [renderClassification, hemp]
  · intro hne
    refine ⟨(mapsKeys c.probabilities).mergeSort (fun a b => a ≤ b), ?_, ?_, ?_⟩
    · exact List.mergeSort_perm _ _
    · have h := @List.sorted_mergeSort String
        (fun a b : String => decide (a ≤ b))
        (fun a b c hab hbc => by
          simp only [decide_eq_true_eq] at hab hbc ⊢
          exact le_trans hab hbc)
        (fun a b => by
          simp only [Bool.or_eq_true, decide_eq_true_eq]
          exact le_total a b)
        (mapsKeys c.probabilities)
      refine h.imp ?_
      intro a b hab
      simpa using hab
    · have hne2 : c.probabilities.isEmpty = false := by
        cases hcp : c.probabilities with
        | nil => exact absurd hcp hne
        | cons x xs => rfl
      simp [renderClassification, hne2]
  · have hc : renderClassification
        { probabilities := [("urgent", mkRat 82 100)], decisions := [("urgent", true)] } =
        String.intercalate "\n" ((List.mergeSort ["urgent"] (fun a b => a ≤ b)).map
          (fun key => "- " ++ key ++ ": " ++
            formatPercent (probLookup [("urgent", mkRat 82 100)] key) ++
            (if decLookup [("urgent", true)] key then " (selected)" else ""))) := rfl
    rw [hc, List.mergeSort_singleton]
    with_unfolding_all rfl

/-- Witness for `classification_render`: the non-empty branch at the
concrete one-category classification. -/
theorem classification_render_witness :
    ∃ keys : List String,
      keys.Perm (mapsKeys ([("urgent", mkRat 82 100)] : List (String × Rat))) ∧
      List.Pairwise (fun a b : String => a ≤ b) keys ∧
      renderClassification
          { probabilities := [("urgent", mkRat 82 100)], decisions := [("urgent", true)] } =
        String.intercalate "\n" (keys.map (fun key =>
          "- " ++ key ++ ": " ++
          formatPercent (probLookup ([("urgent", mkRat 82 100)] : List (String × Rat)) key) ++
          (if decLookup ([("urgent", true)] : List (String × Bool)) key then " (selected)"
           else ""))) :=
  (classification_render
      { probabilities := [("urgent", mkRat 82 100)],
        decisions := [("urgent", true)] }).2.1 (by simp)

end EmailClient
